import Mathlib

/-!
Verification of the subgraph-retrieval core of
`torch_geometric/datasets/web_qsp_dataset.py` (class `WebQSPDataset`,
method `retrieval_via_pcst`, helper `sbert_text2embedding`, and the package
availability checks of `WebQSPDataset.__init__`).

Numeric values (cosine similarities, prizes, costs) are modelled over `ℚ`.
The cosine-similarity vectors themselves are inputs of the prize-assignment
functions: in the source they are produced by `torch.nn.CosineSimilarity`,
an external numeric routine; every ranking / threshold / assignment step
downstream of it is modelled exactly.

`torch.topk` on tied values has an implementation-defined (but deterministic
for a fixed input) order; it is pinned here to the lexicographic order:
larger value first, smaller index first among equal values.

The PCST solver `pcst_fast` is an external collaborator; the functions that
consume its output take the returned vertex list and edge-index list as
arguments.
-/

namespace WebQSP

/-- A `torch_geometric.data.Data` graph as used by `retrieval_via_pcst`:
node features `x`, the columns of `edge_index` as a list of pairs,
edge features `edge_attr`, and the `num_nodes` attribute. -/
structure Data where
  x : List (List ℚ)
  edge_index : List (Nat × Nat)
  edge_attr : List (List ℚ)
  num_nodes : Nat
deriving Repr, DecidableEq

/-- One row of the `textual_nodes` pandas table (columns `node_id, node_attr`). -/
structure NodeRow where
  node_id : Nat
  node_attr : String
deriving Repr, DecidableEq, Inhabited

/-- One row of the `textual_edges` pandas table (columns `src, edge_attr, dst`). -/
structure EdgeRow where
  src : Nat
  edge_attr : String
  dst : Nat
deriving Repr, DecidableEq, Inhabited

/-- Minimal CSV quoting as applied by pandas `to_csv` (QUOTE_MINIMAL): a field
is quoted iff it holds a comma, a double quote or a line break, and double
quotes are doubled inside a quoted field.  Written over the character list of
the string. -/
def csvCell (s : String) : String :=
  if s.data.any (fun ch => ch = ',' || ch = '"' || ch = '\n' || ch = '\r') then
    "\"" ++ String.mk (s.data.flatMap fun ch => if ch = '"' then ['"', '"'] else [ch]) ++ "\""
  else s

/-- `textual_nodes.to_csv(index=False)`: header line `node_id,node_attr`, then
one line per row, each line terminated by a newline. -/
def nodeCsv (rows : List NodeRow) : String :=
  "node_id,node_attr\n" ++
    String.join (rows.map fun r => toString r.node_id ++ "," ++ csvCell r.node_attr ++ "\n")

/-- `textual_edges.to_csv(index=False, columns=["src", "edge_attr", "dst"])`. -/
def edgeCsv (rows : List EdgeRow) : String :=
  "src,edge_attr,dst\n" ++
    String.join (rows.map fun r =>
      toString r.src ++ "," ++ csvCell r.edge_attr ++ "," ++ toString r.dst ++ "\n")

/-! ### Node-prize assignment (`web_qsp_dataset.py` lines 197-205) -/

/-- Tie-break order pinning `torch.topk(·, largest=True)` on a similarity
vector: index `i` precedes index `j` when `i`'s similarity is larger, or the
similarities are equal and `i ≤ j`. -/
def simOrder (sims : List ℚ) (i j : Nat) : Prop :=
  sims.getD j 0 < sims.getD i 0 ∨ (sims.getD i 0 = sims.getD j 0 ∧ i ≤ j)

instance (sims : List ℚ) : DecidableRel (simOrder sims) := fun i j => by
  unfold simOrder; infer_instance

instance (sims : List ℚ) : IsTotal Nat (simOrder sims) where
  total i j := by
    rcases lt_trichotomy (sims.getD i 0) (sims.getD j 0) with h | h | h
    · exact Or.inr (Or.inl h)
    · rcases Nat.le_total i j with hij | hij
      · exact Or.inl (Or.inr ⟨h, hij⟩)
      · exact Or.inr (Or.inr ⟨h.symm, hij⟩)
    · exact Or.inl (Or.inl h)

instance (sims : List ℚ) : IsTrans Nat (simOrder sims) where
  trans i j k hij hjk := by
    rcases hij with h1 | ⟨e1, l1⟩
    · rcases hjk with h2 | ⟨e2, _⟩
      · exact Or.inl (h2.trans h1)
      · exact Or.inl (e2 ▸ h1)
    · rcases hjk with h2 | ⟨e2, l2⟩
      · exact Or.inl (e1 ▸ h2)
      · exact Or.inr ⟨e1.trans e2, l1.trans l2⟩

/-- `torch.topk(n_prizes, topk, largest=True).indices` under the pinned
tie-break order: the first `k` indices of `[0, …, n-1]` sorted by
descending similarity. -/
def topkIndices (sims : List ℚ) (k : Nat) : List Nat :=
  (List.insertionSort (simOrder sims) (List.range sims.length)).take k

/-- Node-prize assignment: if `topk > 0`, clamp `topk` to the number of nodes,
zero the prize vector and scatter `topk, topk-1, …, 1` onto the top-`topk`
indices; otherwise all prizes are zero. -/
def nodePrizes (sims : List ℚ) (topk : Int) : List ℚ :=
  if 0 < topk then
    let tk := min topk.toNat sims.length
    let idx := topkIndices sims tk
    (List.range sims.length).map fun i =>
      match idx.findIdx? (fun m => m = i) with
      | some j => (tk : ℚ) - (j : ℚ)
      | none => 0
  else List.replicate sims.length 0

/-! ### Edge-prize assignment (`web_qsp_dataset.py` lines 207-221) -/

/-- The in-place assignment loop over the selected distinct similarity values
(`for k in range(topk_e)` in the source): the test
`e_prizes == topk_e_values[k]` is evaluated against the *current* prize
array, which previous iterations have already overwritten.  The denominator
`sum(indices)` is positive whenever `topk_e_values[k]` still occurs in `ps`,
which holds on every state reachable from the source's initial state. -/
def assignLoop (tke cm : ℚ) : List ℚ → Nat → ℚ → List ℚ → List ℚ
  | [], _, _, ps => ps
  | v :: vs, k, last, ps =>
    let cnt := (ps.filter (fun p => p = v)).length
    let value := min ((tke - (k : ℚ)) / (cnt : ℚ)) (last - cm)
    assignLoop tke cm vs (k + 1) value (ps.map fun p => if p = v then value else p)

/-- The distinct similarity values sorted descending:
`torch.topk(e_prizes.unique(), topk_e, largest=True).values` is the first
`topk_e` entries of this list. -/
def sortedDistinct (sims : List ℚ) : List ℚ :=
  List.insertionSort (· ≥ ·) sims.dedup

/-- Edge-prize assignment: if `topk_e > 0`, clamp `topk_e` to the number of
distinct similarity values, zero every entry strictly below the `topk_e`-th
distinct highest value, then run the in-place assignment loop with
`last_topk_e_value` initialized to (the clamped) `topk_e` and margin
`c = 0.01`; otherwise all prizes are zero. -/
def edgePrizes (sims : List ℚ) (topk_e : Int) : List ℚ :=
  if 0 < topk_e then
    let tke := min topk_e.toNat sims.dedup.length
    let vals := (sortedDistinct sims).take tke
    let thr := vals.getD (tke - 1) 0
    assignLoop (tke : ℚ) (1 / 100) vals 0 (tke : ℚ)
      (sims.map fun s => if s < thr then 0 else s)
  else List.replicate sims.length 0

/-! ### Virtual-node reduction (`web_qsp_dataset.py` lines 223-252) -/

/-- The accumulator of the reduction loop: the six lists and the two
index-remapping dictionaries built by the `for i, (src, dst) in
enumerate(e_idx.T.numpy())` loop.  The dictionaries `mapping_e` (edge-list
position → original edge index) and `mapping_n` (virtual node id → original
edge index) are modelled as association lists in insertion order. -/
structure PCSTState where
  edge_list : List (Nat × Nat)
  cost_list : List ℚ
  virtual_edges : List (Nat × Nat)
  virtual_costs : List ℚ
  virtual_n_prizes : List ℚ
  mapping_e : List (Nat × Nat)
  mapping_n : List (Nat × Nat)
deriving Repr, DecidableEq

def initState : PCSTState :=
  { edge_list := [], cost_list := [], virtual_edges := [], virtual_costs := [],
    virtual_n_prizes := [], mapping_e := [], mapping_n := [] }

/-- One iteration of the reduction loop on `(i, (src, dst))`:
a cheap edge (`prize_e ≤ cost_e`) is kept with cost `cost_e - prize_e` and its
edge-list position mapped to `i`; an expensive edge becomes the virtual node
`num_nodes + len(virtual_n_prizes)` with prize `prize_e - cost_e` and the two
zero-cost edges `(src, virtual_node_id)`, `(virtual_node_id, dst)`. -/
def reduceStep (cost_e : ℚ) (num_nodes : Nat) (e_prizes : List ℚ) (st : PCSTState)
    (p : Nat × Nat × Nat) : PCSTState :=
  let prize_e := e_prizes.getD p.1 0
  if prize_e ≤ cost_e then
    { st with
      mapping_e := st.mapping_e ++ [(st.edge_list.length, p.1)],
      edge_list := st.edge_list ++ [(p.2.1, p.2.2)],
      cost_list := st.cost_list ++ [cost_e - prize_e] }
  else
    let virtual_node_id := num_nodes + st.virtual_n_prizes.length
    { st with
      mapping_n := st.mapping_n ++ [(virtual_node_id, p.1)],
      virtual_edges := st.virtual_edges ++ [(p.2.1, virtual_node_id), (virtual_node_id, p.2.2)],
      virtual_costs := st.virtual_costs ++ [0, 0],
      virtual_n_prizes := st.virtual_n_prizes ++ [prize_e - cost_e] }

/-- The branch test of the reduction loop (`prize_e <= cost_e`), as a Boolean
predicate on an enumerated edge. -/
def isCheap (ce : ℚ) (ep : List ℚ) (p : Nat × Nat × Nat) : Bool :=
  ep.getD p.1 0 ≤ ce

/-- The complementary test selecting the edges promoted to virtual nodes. -/
def isExpensive (ce : ℚ) (ep : List ℚ) (p : Nat × Nat × Nat) : Bool :=
  !isCheap ce ep p

/-- The whole reduction loop over the enumerated edge list. -/
def reduceEdges (cost_e : ℚ) (num_nodes : Nat) (edges : List (Nat × Nat))
    (e_prizes : List ℚ) : PCSTState :=
  edges.enum.foldl (reduceStep cost_e num_nodes e_prizes) initState

/-! ### Reconstruction (`web_qsp_dataset.py` lines 257-288) -/

/-- Python dictionary lookup on an association list (keys are unique in every
dictionary the source builds). -/
def lookupD (m : List (Nat × Nat)) (k : Nat) : Nat :=
  match m.find? (fun q => q.1 = k) with
  | some q => q.2
  | none => 0

/-- `selected_nodes = vertices[vertices < num_nodes]`. -/
def selectedNodes (nn : Nat) (vertices : List Nat) : List Nat :=
  vertices.filter (fun v => v < nn)

/-- `virtual_vertices = vertices[vertices >= num_nodes]`. -/
def virtualVertices (nn : Nat) (vertices : List Nat) : List Nat :=
  vertices.filter (fun v => nn ≤ v)

/-- `selected_edges = [mapping_e[e] for e in edges if e < num_edges]`, where
`num_edges` has been rebound to `len(edge_list)`. -/
def selectedEdges (st : PCSTState) (sel : List Nat) : List Nat :=
  (sel.filter (fun e => e < st.edge_list.length)).map (lookupD st.mapping_e)

/-- The final original-edge index list: the solver-selected real edges plus,
when the solver returned virtual vertices, the original edges those virtual
vertices stand for. -/
def finalEdges (nn : Nat) (st : PCSTState) (vertices sel : List Nat) : List Nat :=
  if 0 < (virtualVertices nn vertices).length then
    selectedEdges st sel ++ (virtualVertices nn vertices).map (lookupD st.mapping_n)
  else selectedEdges st sel

/-- `edge_index = e_idx[:, new_selected_edges]`: the endpoint pairs of the
final edges. -/
def edgeEndpoints (e_idx : List (Nat × Nat)) (fe : List Nat) : List (Nat × Nat) :=
  fe.map (fun j => e_idx.getD j (0, 0))

/-- `np.unique`: deduplicate and sort ascending. -/
def npUnique (l : List Nat) : List Nat :=
  List.insertionSort (· ≤ ·) l.dedup

/-- `new_selected_nodes = np.unique(np.concatenate([selected_nodes,
edge_index[0], edge_index[1]]))`. -/
def finalNodes (nn : Nat) (e_idx : List (Nat × Nat)) (st : PCSTState)
    (vertices sel : List Nat) : List Nat :=
  let ends := edgeEndpoints e_idx (finalEdges nn st vertices sel)
  npUnique (selectedNodes nn vertices ++ ends.map Prod.fst ++ ends.map Prod.snd)

/-- `mapping = {n: i for i, n in enumerate(new_selected_nodes.tolist())}`:
an original node id is sent to its position in the sorted deduplicated final
node list. -/
def remap (fns : List Nat) (n : Nat) : Nat :=
  fns.findIdx (fun m => m = n)

/-- The `Data` object built at the end of `retrieval_via_pcst`: sliced node
features, remapped endpoints, sliced edge features, and
`num_nodes=len(selected_nodes)`. -/
def reconstructData (graph : Data) (st : PCSTState) (vertices sel : List Nat) : Data :=
  let fe := finalEdges graph.num_nodes st vertices sel
  let fns := finalNodes graph.num_nodes graph.edge_index st vertices sel
  let ends := edgeEndpoints graph.edge_index fe
  { x := fns.map (fun i => graph.x.getD i []),
    edge_index := ends.map (fun p => (remap fns p.1, remap fns p.2)),
    edge_attr := fe.map (fun j => graph.edge_attr.getD j []),
    num_nodes := (selectedNodes graph.num_nodes vertices).length }

/-- The textual description of the non-degenerate path:
`n.to_csv(index=False) + "\n" + e.to_csv(index=False, columns=["src",
"edge_attr", "dst"])` over the `iloc`-selected rows. -/
def reconstructDesc (tn : List NodeRow) (te : List EdgeRow) (fns fe : List Nat) : String :=
  nodeCsv (fns.map fun i => tn.getD i default) ++ "\n" ++
    edgeCsv (fe.map fun j => te.getD j default)

/-- The cost vector handed to `pcst_fast`:
`costs = np.array(cost_list + virtual_costs)` when virtual nodes exist, else
`cost_list`. -/
def solverCosts (st : PCSTState) : List ℚ :=
  if 0 < st.virtual_costs.length then st.cost_list ++ st.virtual_costs else st.cost_list

/-- The edge list handed to `pcst_fast`:
`edges = np.array(edge_list + virtual_edges)` when virtual nodes exist, else
`edge_list`. -/
def solverEdges (st : PCSTState) : List (Nat × Nat) :=
  if 0 < st.virtual_costs.length then st.edge_list ++ st.virtual_edges else st.edge_list

/-- `WebQSPDataset.retrieval_via_pcst`.  The external solver `pcst_fast` is a
parameter taking the reduced edge list, prize vector and cost vector and
returning the selected vertex list and selected edge-index list; `root = -1`,
`num_clusters = 1`, `pruning = "gw"` and `verbosity_level = 0` are fixed
arguments of the call and are owned by the solver.  `nodeSims` and `edgeSims`
are the cosine-similarity vectors of the node and edge features against
`q_emb`. -/
def retrieval_via_pcst
    (solver : List (Nat × Nat) → List ℚ → List ℚ → List Nat × List Nat)
    (graph : Data) (nodeSims edgeSims : List ℚ)
    (textual_nodes : List NodeRow) (textual_edges : List EdgeRow)
    (topk topk_e : Int) (cost_e : ℚ) : Data × String :=
  if textual_nodes.length = 0 ∨ textual_edges.length = 0 then
    ({ x := graph.x, edge_index := graph.edge_index, edge_attr := graph.edge_attr,
       num_nodes := graph.num_nodes },
     nodeCsv textual_nodes ++ "\n" ++ edgeCsv textual_edges)
  else
    let n_prizes := nodePrizes nodeSims topk
    let e_prizes := edgePrizes edgeSims topk_e
    let st := reduceEdges cost_e graph.num_nodes graph.edge_index e_prizes
    let prizes := n_prizes ++ st.virtual_n_prizes
    let costs := solverCosts st
    let edges := solverEdges st
    let vs := solver edges prizes costs
    (reconstructData graph st vs.1 vs.2,
     reconstructDesc textual_nodes textual_edges
       (finalNodes graph.num_nodes graph.edge_index st vs.1 vs.2)
       (finalEdges graph.num_nodes st vs.1 vs.2))

/-! ### `sbert_text2embedding` (`web_qsp_dataset.py` lines 85-121) -/

/-- A dense float matrix with an explicit column count, so that the shape
`(0, 1024)` of the failure result is expressible. -/
structure EmbMatrix where
  rows : List (List ℚ)
  cols : Nat
deriving Repr, DecidableEq

/-- Split a list into consecutive chunks of `n + 1` elements (the last chunk
may be shorter). -/
def batchesAux (n : Nat) : List α → List (List α)
  | [] => []
  | x :: xs => (x :: xs.take n) :: batchesAux n (xs.drop n)
termination_by l => l.length
decreasing_by
  simp only [List.length_drop, List.length_cons]
  omega

/-- `DataLoader(dataset, batch_size=256, shuffle=False)`: the inputs in
consecutive batches of 256. -/
def dataLoaderBatches (l : List α) : List (List α) :=
  batchesAux 255 l

/-- `sbert_text2embedding`: tokenize the text list, run the model batch by
batch, concatenate the outputs; if anything inside the `try` block raises,
return the zero matrix of shape `(0, 1024)` instead.  The tokenizer and the
model forward pass are the external collaborators and may fail. -/
def sbert_text2embedding {Enc : Type}
    (tokenize : List String → Except Unit (List Enc))
    (modelForward : List Enc → Except Unit (List (List ℚ)))
    (text : List String) : EmbMatrix :=
  match (do
      let encs ← tokenize text
      let outs ← (dataLoaderBatches encs).mapM modelForward
      pure outs.flatten : Except Unit (List (List ℚ))) with
  | Except.ok rows => { rows := rows, cols := (rows.headD []).length }
  | Except.error _ => { rows := [], cols := 1024 }

/-! ### Import checks of `WebQSPDataset.__init__` (lines 140-162) -/

/-- The `missing_str_list` built by `__init__`: one entry per unavailable
collaborator, in the order the source tests them. -/
def missingList (with_pcst with_transformers with_datasets with_pandas : Bool) :
    List String :=
  (if with_pcst then [] else ["pcst_fast"]) ++
  (if with_transformers then [] else ["transformers"]) ++
  (if with_datasets then [] else ["datasets"]) ++
  (if with_pandas then [] else ["pandas"])

/-- The import-availability gate at the top of `WebQSPDataset.__init__`: if any
collaborator is missing, raise one `ImportError` whose message joins all
missing names; it runs before any other statement of the constructor. -/
def webQSPDatasetInit (with_pcst with_transformers with_datasets with_pandas : Bool) :
    Except String Unit :=
  let l := missingList with_pcst with_transformers with_datasets with_pandas
  if l.isEmpty then Except.ok ()
  else Except.error ("`pip install " ++ String.intercalate " " l ++ "` to use this dataset.")

/-! ### Derived / spec-side definitions used to state the claims -/

/-- All node ids occurring in a graph's `edge_index` (both rows). -/
def edgeIndexIds (d : Data) : List Nat :=
  d.edge_index.map Prod.fst ++ d.edge_index.map Prod.snd

/-- Modelled from the claim wording for the textual description: node CSV
block, a single newline, then the edge CSV block with the *compact remapped*
node ids in the `src`/`dst` columns.  To be compared with the description the
source actually emits. -/
def descClaim (tn : List NodeRow) (te : List EdgeRow) (fns fe : List Nat) : String :=
  nodeCsv (fns.map fun i => tn.getD i default) ++ "\n" ++
    edgeCsv ((fe.map fun j => te.getD j default).map fun r =>
      { src := remap fns r.src, edge_attr := r.edge_attr, dst := remap fns r.dst })

/-- The number of edges whose similarity equals `v` (a tie group of the
original similarity vector). -/
def tierCount (sims : List ℚ) (v : ℚ) : Nat :=
  (sims.filter (fun s => s = v)).length

/-- The claim's sequence of per-tier prize values: `specAssign … 0 = topk_e`
(the initial `last_topk_e_value`) and the tier with 0-indexed rank `k` gets
`specAssign … (k+1) = min ((topk_e - k) / count_k, previous - c)` where
`count_k` is the size of the `k`-th tie group of the *original* similarity
vector. -/
def specAssign (sims : List ℚ) (tke cm : ℚ) (vals : List ℚ) : Nat → ℚ
  | 0 => tke
  | k + 1 =>
    min ((tke - (k : ℚ)) / (tierCount sims (vals.getD k 0) : ℚ))
      (specAssign sims tke cm vals k - cm)

/-- Modelled from the claim wording for edge-prize assignment: edges below the
`topk_e`-th distinct highest similarity get `0`, and all edges of the tier
with rank `k` get the common prize `specAssign … (k+1)`.  To be compared with
`edgePrizes`, the loop the source actually runs. -/
def edgePrizesSpec (sims : List ℚ) (topk_e : Int) : List ℚ :=
  if 0 < topk_e then
    let tke := min topk_e.toNat sims.dedup.length
    let vals := (sortedDistinct sims).take tke
    let thr := vals.getD (tke - 1) 0
    sims.map fun s =>
      if s < thr then 0
      else
        match vals.findIdx? (fun v => v = s) with
        | some k => specAssign sims (tke : ℚ) (1 / 100) vals (k + 1)
        | none => 0
  else List.replicate sims.length 0

/-- `topk = min(topk, num_nodes)`: the clamp the source applies before
`torch.topk` on node similarities. -/
def clampedTopk (sims : List ℚ) (topk : Int) : Nat :=
  min topk.toNat sims.length

/-- Proof device: the prize array after the first `k` iterations of the
source's assignment loop, as a function of the original similarity of an
entry — provided no already-assigned tier value and no zeroed entry collides
with a still-unprocessed tier value. -/
def loopState (sims : List ℚ) (tke cm : ℚ) (vals : List ℚ) (thr : ℚ) (k : Nat)
    (s : ℚ) : ℚ :=
  if s < thr then 0
  else
    match vals.findIdx? (fun v => v = s) with
    | some j => if j < k then specAssign sims tke cm vals (j + 1) else s
    | none => s

/-! ## General helper lemmas -/

/- Batteries marks the `Rat` field operations irreducible, which blocks
elaborator-side evaluation in `decide`; inside this development we restore the
default reducibility so concrete rational computations evaluate. -/
attribute [local semireducible] Rat.add Rat.sub Rat.mul Rat.inv

theorem except_ok_bind {ε α β : Type} (a : α) (f : α → Except ε β) :
    (Except.ok a : Except ε α) >>= f = f a := rfl

theorem flatten_batchesAux {α : Type} (n : Nat) :
    ∀ l : List α, (batchesAux n l).flatten = l
  | [] => by simp [batchesAux]
  | x :: xs => by
    rw [batchesAux, List.flatten_cons, List.cons_append,
      flatten_batchesAux n (xs.drop n), List.take_append_drop]
termination_by l => l.length
decreasing_by
  simp only [List.length_drop, List.length_cons]
  omega

theorem flatten_dataLoaderBatches {α : Type} (l : List α) :
    (dataLoaderBatches l).flatten = l :=
  flatten_batchesAux 255 l

theorem mapM_pointwise_ok {Enc : Type}
    (modelForward : List Enc → Except Unit (List (List ℚ))) (g : Enc → List ℚ)
    (hm : ∀ b, modelForward b = Except.ok (b.map g)) :
    ∀ bs : List (List Enc),
      bs.mapM modelForward = Except.ok (bs.map (fun b => b.map g))
  | [] => rfl
  | b :: bs => by
    rw [List.mapM_cons, hm b, except_ok_bind, mapM_pointwise_ok modelForward g hm bs,
      except_ok_bind]
    rfl

/-! ## Claim C7 — degenerate graphs bypass the solver -/

/-- C7: whenever the input graph has zero nodes or zero edges (the textual
node or edge table is empty), `retrieval_via_pcst` returns the original
graph unchanged together with a description built directly from the two
tables, never consulting the solver; and for an empty edge table the edge
CSV block is just its header, so the description is the node CSV block plus
an empty edge block. -/
theorem claim_C7_degenerate_bypass
    (solver solver' : List (Nat × Nat) → List ℚ → List ℚ → List Nat × List Nat)
    (graph : Data) (nodeSims edgeSims : List ℚ)
    (tn : List NodeRow) (te : List EdgeRow) (topk topk_e : Int) (cost_e : ℚ)
    (hdeg : tn.length = 0 ∨ te.length = 0) :
    retrieval_via_pcst solver graph nodeSims edgeSims tn te topk topk_e cost_e =
      (graph, nodeCsv tn ++ "\n" ++ edgeCsv te) ∧
    retrieval_via_pcst solver graph nodeSims edgeSims tn te topk topk_e cost_e =
      retrieval_via_pcst solver' graph nodeSims edgeSims tn te topk topk_e cost_e ∧
    (te = [] →
      (retrieval_via_pcst solver graph nodeSims edgeSims tn te topk topk_e cost_e).2 =
        nodeCsv tn ++ "\n" ++ "src,edge_attr,dst\n") := by
  refine ⟨?_, ?_, ?_⟩
  · simp only [retrieval_via_pcst, if_pos hdeg]
  · simp only [retrieval_via_pcst, if_pos hdeg]
  · intro h
    subst h
    simp only [retrieval_via_pcst, if_pos hdeg]
    have he : edgeCsv [] = "src,edge_attr,dst\n" := by
      simp [edgeCsv, String.join]
    rw [he]

/-- Witness for C7 at a concrete zero-edge input. -/
theorem claim_C7_witness :
    (([⟨0, "a"⟩] : List NodeRow).length = 0 ∨ ([] : List EdgeRow).length = 0) ∧
    (retrieval_via_pcst (fun _ _ _ => ([], []))
        { x := [[1]], edge_index := [], edge_attr := [], num_nodes := 1 }
        [0] [] [⟨0, "a"⟩] [] 3 3 (1 / 2)).2 =
      nodeCsv [⟨0, "a"⟩] ++ "\n" ++ "src,edge_attr,dst\n" :=
  ⟨Or.inr rfl,
    (claim_C7_degenerate_bypass (fun _ _ _ => ([], [])) (fun _ _ _ => ([], []))
        { x := [[1]], edge_index := [], edge_attr := [], num_nodes := 1 }
        [0] [] [⟨0, "a"⟩] [] 3 3 (1 / 2) (Or.inr rfl)).2.2 rfl⟩

/-! ## Claim C8 — `sbert_text2embedding` degrades to a `(0, 1024)` zero matrix -/

/-- C8: if the embedding computation fails anywhere inside the `try` block
(tokenization or any model batch), `sbert_text2embedding` returns the zero
matrix of shape `(0, 1024)` instead of propagating the exception; on success
with row-preserving collaborators it returns one embedding row per input
text, in input order (`rows = encs.map g` with one encoding per text). -/
theorem claim_C8_sbert_embedding {Enc : Type}
    (tokenize : List String → Except Unit (List Enc))
    (modelForward : List Enc → Except Unit (List (List ℚ)))
    (g : Enc → List ℚ) (text : List String) :
    (tokenize text = Except.error () →
      sbert_text2embedding tokenize modelForward text = { rows := [], cols := 1024 }) ∧
    (∀ encs, tokenize text = Except.ok encs →
      (dataLoaderBatches encs).mapM modelForward = Except.error () →
      sbert_text2embedding tokenize modelForward text = { rows := [], cols := 1024 }) ∧
    (∀ encs, tokenize text = Except.ok encs → encs.length = text.length →
      (∀ b, modelForward b = Except.ok (b.map g)) →
      (sbert_text2embedding tokenize modelForward text).rows = encs.map g ∧
      (sbert_text2embedding tokenize modelForward text).rows.length = text.length) := by
  refine ⟨?_, ?_, ?_⟩
  · intro h
    simp [sbert_text2embedding, h]
    rfl
  · intro encs h h2
    simp only [List.mapM] at h2
    simp [sbert_text2embedding, h, except_ok_bind, h2]
  · intro encs h hlen hm
    have houts := mapM_pointwise_ok modelForward g hm (dataLoaderBatches encs)
    simp only [List.mapM] at houts
    have hrows : (sbert_text2embedding tokenize modelForward text).rows =
        ((dataLoaderBatches encs).map (fun b => b.map g)).flatten := by
      simp [sbert_text2embedding, h, except_ok_bind, houts]
    rw [hrows, ← List.map_flatten, flatten_dataLoaderBatches]
    exact ⟨rfl, by rw [List.length_map, hlen]⟩

/-- Witness for C8: a two-text success case and a failing-tokenizer case. -/
theorem claim_C8_witness :
    (sbert_text2embedding (fun ts => Except.ok (List.range ts.length))
        (fun b => Except.ok (b.map (fun n : Nat => [(n : ℚ)]))) ["a", "b"]).rows =
      [[(0 : ℚ)], [(1 : ℚ)]] ∧
    sbert_text2embedding (fun _ => Except.error ())
        (fun b : List Nat => Except.ok (b.map (fun n : Nat => [(n : ℚ)]))) ["a", "b"] =
      { rows := [], cols := 1024 } := by
  constructor
  · have h := (claim_C8_sbert_embedding (fun ts => Except.ok (List.range ts.length))
        (fun b => Except.ok (b.map (fun n : Nat => [(n : ℚ)]))) (fun n : Nat => [(n : ℚ)])
        ["a", "b"]).2.2 (List.range 2) rfl rfl (fun _ => rfl)
    rw [h.1]
    rfl
  · exact (claim_C8_sbert_embedding (fun _ => Except.error ())
        (fun b : List Nat => Except.ok (b.map (fun n : Nat => [(n : ℚ)]))) (fun n : Nat => [(n : ℚ)])
        ["a", "b"]).1 rfl

/-! ## Claim C9 — aggregated import error at construction time -/

/-- C9: the availability gate at the top of `WebQSPDataset.__init__` (it runs
before the constructor does anything else) raises a single `ImportError`
naming every missing collaborator of `pcst_fast`, `transformers`, `datasets`,
`pandas` together whenever at least one is missing, and raises nothing when
all are available. -/
theorem claim_C9_import_gate (p t d pa : Bool) :
    (¬(p = true ∧ t = true ∧ d = true ∧ pa = true) →
      webQSPDatasetInit p t d pa =
        Except.error ("`pip install " ++ String.intercalate " " (missingList p t d pa) ++
          "` to use this dataset.") ∧
      (p = false → "pcst_fast".data <:+: ("`pip install " ++
        String.intercalate " " (missingList p t d pa) ++ "` to use this dataset.").data) ∧
      (t = false → "transformers".data <:+: ("`pip install " ++
        String.intercalate " " (missingList p t d pa) ++ "` to use this dataset.").data) ∧
      (d = false → "datasets".data <:+: ("`pip install " ++
        String.intercalate " " (missingList p t d pa) ++ "` to use this dataset.").data) ∧
      (pa = false → "pandas".data <:+: ("`pip install " ++
        String.intercalate " " (missingList p t d pa) ++ "` to use this dataset.").data)) ∧
    ((p = true ∧ t = true ∧ d = true ∧ pa = true) →
      webQSPDatasetInit p t d pa = Except.ok ()) := by
  cases p <;> cases t <;> cases d <;> cases pa <;> refine ⟨fun h => ?_, fun h => ?_⟩ <;>
    first
      | exact (h ⟨rfl, rfl, rfl, rfl⟩).elim
      | exact absurd h (by decide)
      | exact ⟨rfl, by decide, by decide, by decide, by decide⟩
      | rfl

/-- Witness for C9: `pcst_fast` and `datasets` missing, then nothing missing. -/
theorem claim_C9_witness :
    webQSPDatasetInit false true false true =
      Except.error ("`pip install " ++
        String.intercalate " " (missingList false true false true) ++
        "` to use this dataset.") ∧
    "pcst_fast".data <:+: ("`pip install " ++
      String.intercalate " " (missingList false true false true) ++
      "` to use this dataset.").data ∧
    "datasets".data <:+: ("`pip install " ++
      String.intercalate " " (missingList false true false true) ++
      "` to use this dataset.").data ∧
    webQSPDatasetInit true true true true = Except.ok () := by
  have h := (claim_C9_import_gate false true false true).1 (by decide)
  have h2 := (claim_C9_import_gate true true true true).2 ⟨rfl, rfl, rfl, rfl⟩
  exact ⟨h.1, h.2.1 rfl, h.2.2.2.1 rfl, h2⟩

theorem findIdx?_none_of_not_mem {α : Type} [DecidableEq α] :
    ∀ (l : List α) (v : α) (i : Nat), v ∉ l → l.findIdx? (fun m => m = v) i = none
  | [], _, _, _ => rfl
  | x :: xs, v, i, h => by
    rw [List.findIdx?_cons]
    have hx : x ≠ v := fun e => h (e ▸ List.mem_cons_self x xs)
    rw [if_neg (by simpa using hx)]
    exact findIdx?_none_of_not_mem xs v (i + 1) (fun hm => h (List.mem_cons_of_mem _ hm))

theorem findIdx?_some_of_nodup {α : Type} [DecidableEq α] :
    ∀ (l : List α) (v : α) (i j : Nat), l.Nodup → l[j]? = some v →
      l.findIdx? (fun m => m = v) i = some (i + j)
  | [], _, _, j, _, hj => by simp at hj
  | x :: xs, v, i, 0, _, hj => by
    simp only [List.getElem?_cons_zero, Option.some.injEq] at hj
    subst hj
    rw [List.findIdx?_cons]
    simp
  | x :: xs, v, i, j + 1, hnd, hj => by
    simp only [List.getElem?_cons_succ] at hj
    have hvx : x ≠ v := by
      intro e
      subst e
      exact (List.nodup_cons.mp hnd).1 (List.getElem?_mem hj)
    rw [List.findIdx?_cons, if_neg (by simpa using hvx)]
    rw [findIdx?_some_of_nodup xs v (i + 1) j (List.nodup_cons.mp hnd).2 hj]
    exact congrArg some (by omega)

theorem findIdx_some_of_nodup {α : Type} [DecidableEq α] (l : List α) (v : α) (j : Nat)
    (hnd : l.Nodup) (hj : l[j]? = some v) : l.findIdx (fun m => m = v) = j := by
  rw [List.findIdx_eq_findIdx?, findIdx?_some_of_nodup l v 0 j hnd hj]
  simp

theorem findIdx_lt_of_mem {α : Type} [DecidableEq α] {l : List α} {v : α} (h : v ∈ l) :
    l.findIdx (fun m => m = v) < l.length :=
  List.findIdx_lt_length_of_exists ⟨v, h, by simp⟩

/-! ## Claim C3 — node-prize assignment -/

/-- C3: if `topk ≤ 0` every node prize is `0`; otherwise, with `topk` clamped
to `num_nodes`, exactly the `topk` nodes of highest cosine similarity (under
the pinned deterministic tie-break of the top-k selection) receive the
integer prizes `topk, topk-1, …, 1` in descending order of similarity, and
every other node receives prize `0`. -/
theorem claim_C3_node_prizes (sims : List ℚ) (topk : Int) :
    (topk ≤ 0 → nodePrizes sims topk = List.replicate sims.length 0) ∧
    (0 < topk →
      (nodePrizes sims topk).length = sims.length ∧
      (topkIndices sims (clampedTopk sims topk)).Nodup ∧
      (topkIndices sims (clampedTopk sims topk)).length = clampedTopk sims topk ∧
      (∀ i ∈ topkIndices sims (clampedTopk sims topk), i < sims.length) ∧
      (∀ j, j < clampedTopk sims topk →
        (nodePrizes sims topk).getD ((topkIndices sims (clampedTopk sims topk)).getD j 0) 0 =
          (clampedTopk sims topk : ℚ) - (j : ℚ)) ∧
      (∀ i, i < sims.length → i ∉ topkIndices sims (clampedTopk sims topk) →
        (nodePrizes sims topk).getD i 0 = 0) ∧
      (∀ j1 j2, j1 ≤ j2 → j2 < clampedTopk sims topk →
        sims.getD ((topkIndices sims (clampedTopk sims topk)).getD j2 0) 0 ≤
          sims.getD ((topkIndices sims (clampedTopk sims topk)).getD j1 0) 0) ∧
      (∀ i, i < sims.length → i ∉ topkIndices sims (clampedTopk sims topk) →
        ∀ m ∈ topkIndices sims (clampedTopk sims topk),
          sims.getD i 0 ≤ sims.getD m 0)) := by
  constructor
  · intro h
    rw [nodePrizes, if_neg (by omega)]
  · intro h
    set tk := clampedTopk sims topk with htk
    have hbranch : nodePrizes sims topk = (List.range sims.length).map (fun i =>
        match (topkIndices sims tk).findIdx? (fun m => m = i) with
        | some j => (tk : ℚ) - (j : ℚ)
        | none => 0) := by
      rw [nodePrizes, if_pos h, htk, clampedTopk]
    set S := List.insertionSort (simOrder sims) (List.range sims.length) with hS
    have hidx' : topkIndices sims tk = S.take tk := by
      rw [topkIndices, hS]
    have hperm : S.Perm (List.range sims.length) := List.perm_insertionSort _ _
    have hlenS : S.length = sims.length := by
      rw [hperm.length_eq, List.length_range]
    have hnodS : S.Nodup := hperm.nodup_iff.mpr (List.nodup_range _)
    have hsort : List.Sorted (simOrder sims) S := List.sorted_insertionSort _ _
    have htkle : tk ≤ sims.length := by
      rw [htk, clampedTopk]
      omega
    have hlenidx : (topkIndices sims tk).length = tk := by
      rw [hidx', List.length_take, hlenS]
      omega
    have hnodidx : (topkIndices sims tk).Nodup :=
      hidx' ▸ (List.take_sublist tk S).nodup hnodS
    have hmemS : ∀ i ∈ S, i < sims.length := fun i hi =>
      List.mem_range.mp (hperm.mem_iff.mp hi)
    have hmemidx : ∀ i ∈ topkIndices sims tk, i < sims.length := by
      intro i hi
      rw [hidx'] at hi
      exact hmemS i (List.Sublist.mem hi (List.take_sublist tk S))
    have hidxelem : ∀ j, j < tk → (topkIndices sims tk)[j]? = S[j]? := by
      intro j hj
      rw [hidx', List.getElem?_take, if_pos hj]
    have hidxgetD : ∀ j, j < tk → ∀ hjS : j < S.length,
        (topkIndices sims tk).getD j 0 = S[j] := by
      intro j hj hjS
      rw [List.getD_eq_getElem?_getD, hidxelem j hj, List.getElem?_eq_getElem hjS]
      rfl
    have hprizelen : (nodePrizes sims topk).length = sims.length := by
      rw [hbranch, List.length_map, List.length_range]
    refine ⟨hprizelen, hnodidx, hlenidx, hmemidx, ?_, ?_, ?_, ?_⟩
    · -- prize at the j-th selected index is tk - j
      intro j hj
      have hmem : (topkIndices sims tk).getD j 0 ∈ topkIndices sims tk := by
        rw [List.getD_eq_getElem?_getD,
          List.getElem?_eq_getElem (by omega : j < (topkIndices sims tk).length)]
        exact List.getElem_mem _
      have hij : (topkIndices sims tk).getD j 0 < sims.length := hmemidx _ hmem
      have hjq : (topkIndices sims tk)[j]? = some ((topkIndices sims tk).getD j 0) := by
        rw [List.getD_eq_getElem?_getD,
          List.getElem?_eq_getElem (by omega : j < (topkIndices sims tk).length)]
        rfl
      have hfind := findIdx?_some_of_nodup (topkIndices sims tk)
        ((topkIndices sims tk).getD j 0) 0 j hnodidx hjq
      rw [hbranch, List.getD_eq_getElem?_getD,
        List.getElem?_eq_getElem (by simpa using hij)]
      rw [List.getElem_map]
      simp only [List.getElem_range]
      rw [hfind]
      simp
    · -- unselected indices get 0
      intro i hi hnotin
      have hfind := findIdx?_none_of_not_mem (topkIndices sims tk) i 0 hnotin
      rw [hbranch, List.getD_eq_getElem?_getD,
        List.getElem?_eq_getElem (by simpa using hi)]
      rw [List.getElem_map]
      simp only [List.getElem_range]
      rw [hfind]
      rfl
    · -- similarities along the selection are descending
      intro j1 j2 hle hj2
      rcases Nat.eq_or_lt_of_le hle with he | hlt
      · subst he
        exact le_refl _
      · have hj1S : j1 < S.length := by omega
        have hj2S : j2 < S.length := by omega
        have h12 : simOrder sims S[j1] S[j2] :=
          List.pairwise_iff_getElem.mp hsort j1 j2 hj1S hj2S hlt
        rw [hidxgetD j1 (by omega : j1 < tk) hj1S, hidxgetD j2 hj2 hj2S]
        rcases h12 with hlt' | ⟨heq, _⟩
        · exact le_of_lt hlt'
        · exact le_of_eq heq.symm
    · -- selected indices dominate unselected ones
      intro i hi hnotin m hm
      have hiS : i ∈ S := hperm.mem_iff.mpr (List.mem_range.mpr hi)
      have hsplit : S = S.take tk ++ S.drop tk := (List.take_append_drop tk S).symm
      have hpair := List.pairwise_append.mp (hsplit ▸ hsort)
      have hidrop : i ∈ S.drop tk := by
        rcases List.mem_append.mp (hsplit ▸ hiS) with h' | h'
        · exact absurd (hidx' ▸ h' : i ∈ topkIndices sims tk) hnotin
        · exact h'
      have hm' : m ∈ S.take tk := hidx' ▸ hm
      have hrel : simOrder sims m i := hpair.2.2 m hm' i hidrop
      rcases hrel with hlt' | ⟨heq, _⟩
      · exact le_of_lt hlt'
      · exact le_of_eq heq.symm

/-- Witness for C3 at `sims = [1/2, 3/4, 3/4, 0]`, `topk = 2`: the best node
(index 1) gets prize `2`. -/
theorem claim_C3_witness :
    (0 : Int) < 2 ∧
    (nodePrizes [1/2, 3/4, 3/4, 0] 2).getD
        ((topkIndices [1/2, 3/4, 3/4, 0] (clampedTopk [1/2, 3/4, 3/4, 0] 2)).getD 0 0) 0 =
      (clampedTopk [1/2, 3/4, 3/4, 0] 2 : ℚ) - ((0 : Nat) : ℚ) :=
  ⟨by decide, ((claim_C3_node_prizes [1/2, 3/4, 3/4, 0] 2).2 (by decide)).2.2.2.2.1 0 (by decide)⟩

theorem mem_finalNodes (nn : Nat) (e_idx : List (Nat × Nat)) (st : PCSTState)
    (vertices sel : List Nat) (m : Nat) :
    m ∈ finalNodes nn e_idx st vertices sel ↔
      m ∈ selectedNodes nn vertices ∨
      ∃ p ∈ edgeEndpoints e_idx (finalEdges nn st vertices sel), p.1 = m ∨ p.2 = m := by
  rw [finalNodes, npUnique]
  rw [List.mem_insertionSort, List.mem_dedup, List.mem_append, List.mem_append]
  simp only [List.mem_map]
  constructor
  · rintro ((h | ⟨p, hp, he⟩) | ⟨p, hp, he⟩)
    · exact Or.inl h
    · exact Or.inr ⟨p, hp, Or.inl he⟩
    · exact Or.inr ⟨p, hp, Or.inr he⟩
  · rintro (h | ⟨p, hp, he | he⟩)
    · exact Or.inl (Or.inl h)
    · exact Or.inl (Or.inr ⟨p, hp, he⟩)
    · exact Or.inr ⟨p, hp, he⟩

theorem sorted_finalNodes (nn : Nat) (e_idx : List (Nat × Nat)) (st : PCSTState)
    (vertices sel : List Nat) :
    List.Sorted (· ≤ ·) (finalNodes nn e_idx st vertices sel) := by
  rw [finalNodes, npUnique]
  exact List.sorted_insertionSort _ _

theorem nodup_finalNodes (nn : Nat) (e_idx : List (Nat × Nat)) (st : PCSTState)
    (vertices sel : List Nat) :
    (finalNodes nn e_idx st vertices sel).Nodup := by
  rw [finalNodes, npUnique]
  exact (List.perm_insertionSort _ _).nodup_iff.mpr (List.nodup_dedup _)

theorem remap_getD_finalNodes (nn : Nat) (e_idx : List (Nat × Nat)) (st : PCSTState)
    (vertices sel : List Nat) (j : Nat)
    (hj : j < (finalNodes nn e_idx st vertices sel).length) :
    remap (finalNodes nn e_idx st vertices sel)
      ((finalNodes nn e_idx st vertices sel).getD j 0) = j := by
  rw [remap]
  refine findIdx_some_of_nodup _ _ j (nodup_finalNodes nn e_idx st vertices sel) ?_
  rw [List.getElem?_eq_getElem hj, List.getD_eq_getElem?_getD, List.getElem?_eq_getElem hj]
  rfl

theorem remap_mem_lt (fns : List Nat) (m : Nat) (h : m ∈ fns) :
    remap fns m < fns.length :=
  findIdx_lt_of_mem h

theorem edgeIndexIds_reconstruct (graph : Data) (st : PCSTState) (vertices sel : List Nat) :
    edgeIndexIds (reconstructData graph st vertices sel) =
      ((edgeEndpoints graph.edge_index (finalEdges graph.num_nodes st vertices sel)).map
          Prod.fst ++
        (edgeEndpoints graph.edge_index (finalEdges graph.num_nodes st vertices sel)).map
          Prod.snd).map
        (remap (finalNodes graph.num_nodes graph.edge_index st vertices sel)) := by
  rw [edgeIndexIds, reconstructData]
  simp only [List.map_map, List.map_append]
  congr 1

theorem remap_getD_self (l : List Nat) (m : Nat) (h : m ∈ l) :
    l.getD (remap l m) 0 = m := by
  have hlt : l.findIdx (fun x => x = m) < l.length := findIdx_lt_of_mem h
  rw [remap, List.getD_eq_getElem?_getD, List.getElem?_eq_getElem hlt]
  have h2 := @List.findIdx_getElem Nat (fun x => decide (x = m)) l hlt
  simpa using h2

theorem list_toFinset_map (l : List Nat) (f : Nat → Nat) :
    (l.map f).toFinset = l.toFinset.image f := by
  ext a
  simp

/-! ## Claim C4 — the final node set -/

/-- C4: the final node set of the reconstruction is exactly `selected_nodes`
united with the endpoints of every final edge, deduplicated and sorted
ascending; in particular every endpoint of every final edge is present in
the final node set (also when the solver selected only an edge's virtual
node). -/
theorem claim_C4_final_node_set (nn : Nat) (e_idx : List (Nat × Nat)) (st : PCSTState)
    (vertices sel : List Nat) :
    (∀ m, m ∈ finalNodes nn e_idx st vertices sel ↔
        m ∈ selectedNodes nn vertices ∨
        ∃ p ∈ edgeEndpoints e_idx (finalEdges nn st vertices sel), p.1 = m ∨ p.2 = m) ∧
    List.Sorted (· ≤ ·) (finalNodes nn e_idx st vertices sel) ∧
    (finalNodes nn e_idx st vertices sel).Nodup ∧
    (∀ p ∈ edgeEndpoints e_idx (finalEdges nn st vertices sel),
      p.1 ∈ finalNodes nn e_idx st vertices sel ∧
      p.2 ∈ finalNodes nn e_idx st vertices sel) :=
  ⟨mem_finalNodes nn e_idx st vertices sel,
   sorted_finalNodes nn e_idx st vertices sel,
   nodup_finalNodes nn e_idx st vertices sel,
   fun p hp =>
     ⟨(mem_finalNodes nn e_idx st vertices sel p.1).mpr (Or.inr ⟨p, hp, Or.inl rfl⟩),
      (mem_finalNodes nn e_idx st vertices sel p.2).mpr (Or.inr ⟨p, hp, Or.inr rfl⟩)⟩⟩

/-- Witness for C4 at a concrete reconstruction input. -/
theorem claim_C4_witness :
    1 ∈ finalNodes 2 [(0, 1)] (reduceEdges (1/2) 2 [(0, 1)] [0]) [0] [0] ↔
      1 ∈ selectedNodes 2 [0] ∨
      ∃ p ∈ edgeEndpoints [(0, 1)]
          (finalEdges 2 (reduceEdges (1/2) 2 [(0, 1)] [0]) [0] [0]), p.1 = 1 ∨ p.2 = 1 :=
  (claim_C4_final_node_set 2 [(0, 1)] (reduceEdges (1/2) 2 [(0, 1)] [0]) [0] [0]).1 1

/-! ## Claim C5 — compact id range in the returned `edge_index` -/

/-- Counterexample to C5 as stated: when the solver returns the single vertex
`0` and no edges, the final node set is `[0]` (length 1) but the returned
`edge_index` holds no ids at all, so the ids appearing in it are not
*exactly* `[0, |final_nodes|)`. -/
theorem claim_C5_counterexample :
    ¬ (∀ id, id ∈ edgeIndexIds
          (retrieval_via_pcst (fun _ _ _ => ([0], []))
            { x := [[1], [2]], edge_index := [(0, 1)], edge_attr := [[5]], num_nodes := 2 }
            [0, 0] [0] [⟨0, "a"⟩, ⟨1, "b"⟩] [⟨0, "r", 1⟩] 3 0 (1 / 2)).1 ↔
        id < (finalNodes 2 [(0, 1)]
            (reduceEdges (1 / 2) 2 [(0, 1)] (edgePrizes [0] 0)) [0] []).length) := by
  intro h
  have h0 := (h 0).mpr (by decide)
  revert h0
  decide

/-- C5 (amended): every id in the returned `edge_index` lies in
`[0, |final_nodes|)`; the remapping is the dense order isomorphism sending
the `j`-th smallest final node id to `j`; node and edge feature tensors are
sliced to the final node / edge lists; and the ids are *exactly*
`[0, |final_nodes|)` whenever every final node is an endpoint of some final
edge. -/
theorem claim_C5_compact_ids (graph : Data) (st : PCSTState) (vertices sel : List Nat) :
    (∀ id ∈ edgeIndexIds (reconstructData graph st vertices sel),
      id < (finalNodes graph.num_nodes graph.edge_index st vertices sel).length) ∧
    (∀ j, j < (finalNodes graph.num_nodes graph.edge_index st vertices sel).length →
      remap (finalNodes graph.num_nodes graph.edge_index st vertices sel)
        ((finalNodes graph.num_nodes graph.edge_index st vertices sel).getD j 0) = j) ∧
    (reconstructData graph st vertices sel).x.length =
      (finalNodes graph.num_nodes graph.edge_index st vertices sel).length ∧
    (reconstructData graph st vertices sel).edge_attr.length =
      (finalEdges graph.num_nodes st vertices sel).length ∧
    ((∀ m ∈ finalNodes graph.num_nodes graph.edge_index st vertices sel,
        ∃ p ∈ edgeEndpoints graph.edge_index (finalEdges graph.num_nodes st vertices sel),
          p.1 = m ∨ p.2 = m) →
      ∀ j, j < (finalNodes graph.num_nodes graph.edge_index st vertices sel).length →
        j ∈ edgeIndexIds (reconstructData graph st vertices sel)) := by
  have hids : edgeIndexIds (reconstructData graph st vertices sel) =
      (edgeEndpoints graph.edge_index (finalEdges graph.num_nodes st vertices sel)).map
        (fun p => remap (finalNodes graph.num_nodes graph.edge_index st vertices sel) p.1) ++
      (edgeEndpoints graph.edge_index (finalEdges graph.num_nodes st vertices sel)).map
        (fun p => remap (finalNodes graph.num_nodes graph.edge_index st vertices sel) p.2) := by
    rw [edgeIndexIds, reconstructData]
    simp only [List.map_map]
    congr 1
  refine ⟨?_, ?_, ?_, ?_, ?_⟩
  · intro id hid
    rw [hids, List.mem_append] at hid
    rcases hid with hid | hid <;> rw [List.mem_map] at hid <;> obtain ⟨p, hp, he⟩ := hid
    · subst he
      exact remap_mem_lt _ _
        ((mem_finalNodes graph.num_nodes graph.edge_index st vertices sel p.1).mpr
          (Or.inr ⟨p, hp, Or.inl rfl⟩))
    · subst he
      exact remap_mem_lt _ _
        ((mem_finalNodes graph.num_nodes graph.edge_index st vertices sel p.2).mpr
          (Or.inr ⟨p, hp, Or.inr rfl⟩))
  · exact fun j hj => remap_getD_finalNodes graph.num_nodes graph.edge_index st vertices sel j hj
  · rw [reconstructData]
    simp
  · rw [reconstructData]
    simp
  · intro hcover j hj
    have hmemj : (finalNodes graph.num_nodes graph.edge_index st vertices sel).getD j 0 ∈
        finalNodes graph.num_nodes graph.edge_index st vertices sel := by
      rw [List.getD_eq_getElem?_getD, List.getElem?_eq_getElem hj]
      exact List.getElem_mem _
    obtain ⟨p, hp, he⟩ := hcover _ hmemj
    rw [hids, List.mem_append]
    rcases he with he | he
    · refine Or.inl ?_
      rw [List.mem_map]
      refine ⟨p, hp, ?_⟩
      rw [he, remap_getD_finalNodes graph.num_nodes graph.edge_index st vertices sel j hj]
    · refine Or.inr ?_
      rw [List.mem_map]
      refine ⟨p, hp, ?_⟩
      rw [he, remap_getD_finalNodes graph.num_nodes graph.edge_index st vertices sel j hj]

/-- Witness for C5 at a concrete input where the final ids are the full range. -/
theorem claim_C5_witness :
    0 ∈ edgeIndexIds (reconstructData
        { x := [[1], [2]], edge_index := [(0, 1)], edge_attr := [[5]], num_nodes := 2 }
        (reduceEdges (1 / 2) 2 [(0, 1)] (edgePrizes [0] 0)) [0, 1] [0]) ∧
    1 ∈ edgeIndexIds (reconstructData
        { x := [[1], [2]], edge_index := [(0, 1)], edge_attr := [[5]], num_nodes := 2 }
        (reduceEdges (1 / 2) 2 [(0, 1)] (edgePrizes [0] 0)) [0, 1] [0]) :=
  ⟨(claim_C5_compact_ids
      { x := [[1], [2]], edge_index := [(0, 1)], edge_attr := [[5]], num_nodes := 2 }
      (reduceEdges (1 / 2) 2 [(0, 1)] (edgePrizes [0] 0)) [0, 1] [0]).2.2.2.2
        (by decide) 0 (by decide),
   (claim_C5_compact_ids
      { x := [[1], [2]], edge_index := [(0, 1)], edge_attr := [[5]], num_nodes := 2 }
      (reduceEdges (1 / 2) 2 [(0, 1)] (edgePrizes [0] 0)) [0, 1] [0]).2.2.2.2
        (by decide) 1 (by decide)⟩

/-! ## Claim C10 — `num_nodes` counts only solver-selected real nodes -/

/-- C10: the `num_nodes` attribute of the returned `Data` equals the number of
solver-returned vertices below the original `num_nodes`; whenever the
endpoint union added nodes beyond the solver's selection (and the solver
returned distinct vertices each of which is an endpoint of a final edge),
`num_nodes` is strictly smaller than the number of rows of `x` and than the
number of distinct compact ids used in `edge_index`. -/
theorem claim_C10_num_nodes (graph : Data) (st : PCSTState) (vertices sel : List Nat)
    (hnd : vertices.Nodup)
    (hcover : ∀ m ∈ selectedNodes graph.num_nodes vertices,
      ∃ p ∈ edgeEndpoints graph.edge_index (finalEdges graph.num_nodes st vertices sel),
        p.1 = m ∨ p.2 = m)
    (hextra : ∃ m ∈ finalNodes graph.num_nodes graph.edge_index st vertices sel,
      m ∉ selectedNodes graph.num_nodes vertices) :
    (reconstructData graph st vertices sel).num_nodes =
      (vertices.filter (fun v => v < graph.num_nodes)).length ∧
    (reconstructData graph st vertices sel).num_nodes <
      (reconstructData graph st vertices sel).x.length ∧
    (reconstructData graph st vertices sel).num_nodes <
      (edgeIndexIds (reconstructData graph st vertices sel)).toFinset.card := by
  obtain ⟨m0, hm0fns, hm0S⟩ := hextra
  have hnum : (reconstructData graph st vertices sel).num_nodes =
      (selectedNodes graph.num_nodes vertices).length := by
    rw [reconstructData]
  have hSnodup : (selectedNodes graph.num_nodes vertices).Nodup := hnd.filter _
  have hfnsnodup := nodup_finalNodes graph.num_nodes graph.edge_index st vertices sel
  have hScard : (selectedNodes graph.num_nodes vertices).toFinset.card =
      (selectedNodes graph.num_nodes vertices).length :=
    List.toFinset_card_of_nodup hSnodup
  refine ⟨hnum, ?_, ?_⟩
  · -- num_nodes < number of rows of x
    have hxlen : (reconstructData graph st vertices sel).x.length =
        (finalNodes graph.num_nodes graph.edge_index st vertices sel).length := by
      rw [reconstructData]
      simp
    have hsub : (selectedNodes graph.num_nodes vertices).toFinset ⊆
        (finalNodes graph.num_nodes graph.edge_index st vertices sel).toFinset := by
      intro m hm
      rw [List.mem_toFinset] at hm ⊢
      exact (mem_finalNodes graph.num_nodes graph.edge_index st vertices sel m).mpr (Or.inl hm)
    have hss : (selectedNodes graph.num_nodes vertices).toFinset ⊂
        (finalNodes graph.num_nodes graph.edge_index st vertices sel).toFinset := by
      refine (Finset.ssubset_iff_of_subset hsub).mpr ?_
      exact ⟨m0, List.mem_toFinset.mpr hm0fns, fun hc => hm0S (List.mem_toFinset.mp hc)⟩
    have := Finset.card_lt_card hss
    rw [hScard, List.toFinset_card_of_nodup hfnsnodup] at this
    rw [hnum, hxlen]
    exact this
  · -- num_nodes < number of distinct compact ids used in edge_index
    have hE : ∀ m ∈ (edgeEndpoints graph.edge_index
          (finalEdges graph.num_nodes st vertices sel)).map Prod.fst ++
        (edgeEndpoints graph.edge_index (finalEdges graph.num_nodes st vertices sel)).map
          Prod.snd,
        m ∈ finalNodes graph.num_nodes graph.edge_index st vertices sel := by
      intro m hm
      rw [List.mem_append] at hm
      rcases hm with hm | hm <;> rw [List.mem_map] at hm <;> obtain ⟨p, hp, he⟩ := hm
      · exact (mem_finalNodes graph.num_nodes graph.edge_index st vertices sel m).mpr
          (Or.inr ⟨p, hp, Or.inl he⟩)
      · exact (mem_finalNodes graph.num_nodes graph.edge_index st vertices sel m).mpr
          (Or.inr ⟨p, hp, Or.inr he⟩)
    have hinj : Set.InjOn (remap (finalNodes graph.num_nodes graph.edge_index st vertices sel))
        (((edgeEndpoints graph.edge_index (finalEdges graph.num_nodes st vertices sel)).map
            Prod.fst ++
          (edgeEndpoints graph.edge_index (finalEdges graph.num_nodes st vertices sel)).map
            Prod.snd).toFinset : Finset Nat) := by
      intro a ha b hb hab
      rw [Finset.mem_coe, List.mem_toFinset] at ha hb
      have ha2 := remap_getD_self _ a (hE a ha)
      have hb2 := remap_getD_self _ b (hE b hb)
      rw [← ha2, ← hb2, hab]
    have hidcard : (edgeIndexIds (reconstructData graph st vertices sel)).toFinset.card =
        (((edgeEndpoints graph.edge_index (finalEdges graph.num_nodes st vertices sel)).map
            Prod.fst ++
          (edgeEndpoints graph.edge_index (finalEdges graph.num_nodes st vertices sel)).map
            Prod.snd).toFinset).card := by
      rw [edgeIndexIds_reconstruct, list_toFinset_map, Finset.card_image_of_injOn hinj]
    have hsubE : (selectedNodes graph.num_nodes vertices).toFinset ⊆
        (((edgeEndpoints graph.edge_index (finalEdges graph.num_nodes st vertices sel)).map
            Prod.fst ++
          (edgeEndpoints graph.edge_index (finalEdges graph.num_nodes st vertices sel)).map
            Prod.snd).toFinset) := by
      intro m hm
      rw [List.mem_toFinset] at hm ⊢
      obtain ⟨p, hp, he⟩ := hcover m hm
      rw [List.mem_append]
      rcases he with he | he
      · exact Or.inl (List.mem_map.mpr ⟨p, hp, he⟩)
      · exact Or.inr (List.mem_map.mpr ⟨p, hp, he⟩)
    have hm0E : m0 ∈ ((edgeEndpoints graph.edge_index
          (finalEdges graph.num_nodes st vertices sel)).map Prod.fst ++
        (edgeEndpoints graph.edge_index (finalEdges graph.num_nodes st vertices sel)).map
          Prod.snd) := by
      rcases (mem_finalNodes graph.num_nodes graph.edge_index st vertices sel m0).mp hm0fns with
        h | ⟨p, hp, he⟩
      · exact absurd h hm0S
      · rw [List.mem_append]
        rcases he with he | he
        · exact Or.inl (List.mem_map.mpr ⟨p, hp, he⟩)
        · exact Or.inr (List.mem_map.mpr ⟨p, hp, he⟩)
    have hssE : (selectedNodes graph.num_nodes vertices).toFinset ⊂
        (((edgeEndpoints graph.edge_index (finalEdges graph.num_nodes st vertices sel)).map
            Prod.fst ++
          (edgeEndpoints graph.edge_index (finalEdges graph.num_nodes st vertices sel)).map
            Prod.snd).toFinset) := by
      refine (Finset.ssubset_iff_of_subset hsubE).mpr ?_
      exact ⟨m0, List.mem_toFinset.mpr hm0E, fun hc => hm0S (List.mem_toFinset.mp hc)⟩
    have hlt := Finset.card_lt_card hssE
    rw [hScard] at hlt
    rw [hnum, hidcard]
    exact hlt

/-- Witness for C10: the solver keeps node `0` and the virtual node of the
expensive edge `(0, 1)`; reconstruction adds node `1`, so `num_nodes = 1`
while `x` has two rows and `edge_index` uses two distinct compact ids. -/
theorem claim_C10_witness :
    (reconstructData
        { x := [[1], [2]], edge_index := [(0, 1)], edge_attr := [[5]], num_nodes := 2 }
        (reduceEdges (1 / 2) 2 [(0, 1)] (edgePrizes [1] 1)) [0, 2] [0]).num_nodes <
      (edgeIndexIds (reconstructData
        { x := [[1], [2]], edge_index := [(0, 1)], edge_attr := [[5]], num_nodes := 2 }
        (reduceEdges (1 / 2) 2 [(0, 1)] (edgePrizes [1] 1)) [0, 2] [0])).toFinset.card :=
  (claim_C10_num_nodes
      { x := [[1], [2]], edge_index := [(0, 1)], edge_attr := [[5]], num_nodes := 2 }
      (reduceEdges (1 / 2) 2 [(0, 1)] (edgePrizes [1] 1)) [0, 2] [0]
      (by decide) (by decide) (by decide)).2.2

/-! ## Claim C6 — the emitted textual description -/

/-- Counterexample to C6 as stated: with final nodes `{1, 2}` and the single
final edge `(1, 2)`, the description the source emits shows the edge row with
its *original* node ids (`1,r,2`), not the compact remapped ids (`0,r,1`)
that the claim (and spec) require: the source dumps
`textual_edges.iloc[new_selected_edges]` unmodified, remapping only the
tensor `edge_index`. -/
theorem claim_C6_counterexample :
    (retrieval_via_pcst (fun _ _ _ => ([1, 2], [0]))
        { x := [[1], [2], [3]], edge_index := [(1, 2)], edge_attr := [[5]], num_nodes := 3 }
        [0, 0, 0] [0] [⟨0, "a"⟩, ⟨1, "b"⟩, ⟨2, "c"⟩] [⟨1, "r", 2⟩] 3 0 (1 / 2)).2 ≠
      descClaim [⟨0, "a"⟩, ⟨1, "b"⟩, ⟨2, "c"⟩] [⟨1, "r", 2⟩]
        (finalNodes 3 [(1, 2)]
          (reduceEdges (1 / 2) 3 [(1, 2)] (edgePrizes [0] 0)) [1, 2] [0])
        (finalEdges 3 (reduceEdges (1 / 2) 3 [(1, 2)] (edgePrizes [0] 0)) [1, 2] [0]) := by
  decide

/-- C6 (amended): in the non-degenerate path the emitted description is the
CSV dump of the selected node table joined by a single newline with the CSV
dump of the selected edge table restricted to `(src, edge_attr, dst)`, where
the edge rows carry the *original* node ids (not the compact remapped ids);
the node block starts with header `node_id,node_attr` and the edge block with
header `src,edge_attr,dst`. -/
theorem claim_C6_description
    (solver : List (Nat × Nat) → List ℚ → List ℚ → List Nat × List Nat)
    (graph : Data) (nodeSims edgeSims : List ℚ)
    (tn : List NodeRow) (te : List EdgeRow) (topk topk_e : Int) (cost_e : ℚ)
    (hn : tn.length ≠ 0) (he : te.length ≠ 0) :
    (retrieval_via_pcst solver graph nodeSims edgeSims tn te topk topk_e cost_e).2 =
      nodeCsv ((finalNodes graph.num_nodes graph.edge_index
          (reduceEdges cost_e graph.num_nodes graph.edge_index (edgePrizes edgeSims topk_e))
          (solver
            (solverEdges (reduceEdges cost_e graph.num_nodes graph.edge_index
              (edgePrizes edgeSims topk_e)))
            (nodePrizes nodeSims topk ++
              (reduceEdges cost_e graph.num_nodes graph.edge_index
                (edgePrizes edgeSims topk_e)).virtual_n_prizes)
            (solverCosts (reduceEdges cost_e graph.num_nodes graph.edge_index
              (edgePrizes edgeSims topk_e)))).1
          (solver
            (solverEdges (reduceEdges cost_e graph.num_nodes graph.edge_index
              (edgePrizes edgeSims topk_e)))
            (nodePrizes nodeSims topk ++
              (reduceEdges cost_e graph.num_nodes graph.edge_index
                (edgePrizes edgeSims topk_e)).virtual_n_prizes)
            (solverCosts (reduceEdges cost_e graph.num_nodes graph.edge_index
              (edgePrizes edgeSims topk_e)))).2).map fun i => tn.getD i default) ++
      "\n" ++
      edgeCsv ((finalEdges graph.num_nodes
          (reduceEdges cost_e graph.num_nodes graph.edge_index (edgePrizes edgeSims topk_e))
          (solver
            (solverEdges (reduceEdges cost_e graph.num_nodes graph.edge_index
              (edgePrizes edgeSims topk_e)))
            (nodePrizes nodeSims topk ++
              (reduceEdges cost_e graph.num_nodes graph.edge_index
                (edgePrizes edgeSims topk_e)).virtual_n_prizes)
            (solverCosts (reduceEdges cost_e graph.num_nodes graph.edge_index
              (edgePrizes edgeSims topk_e)))).1
          (solver
            (solverEdges (reduceEdges cost_e graph.num_nodes graph.edge_index
              (edgePrizes edgeSims topk_e)))
            (nodePrizes nodeSims topk ++
              (reduceEdges cost_e graph.num_nodes graph.edge_index
                (edgePrizes edgeSims topk_e)).virtual_n_prizes)
            (solverCosts (reduceEdges cost_e graph.num_nodes graph.edge_index
              (edgePrizes edgeSims topk_e)))).2).map fun j => te.getD j default) ∧
    (∀ rows : List NodeRow, ∃ rest, nodeCsv rows = "node_id,node_attr\n" ++ rest) ∧
    (∀ rows : List EdgeRow, ∃ rest, edgeCsv rows = "src,edge_attr,dst\n" ++ rest) := by
  refine ⟨?_, fun rows => ⟨_, rfl⟩, fun rows => ⟨_, rfl⟩⟩
  rw [retrieval_via_pcst, if_neg (by tauto)]
  rfl

/-- Witness for C6 at a concrete non-degenerate input. -/
theorem claim_C6_witness :
    ∃ rest, nodeCsv [⟨0, "x"⟩] = "node_id,node_attr\n" ++ rest :=
  (claim_C6_description (fun _ _ _ => ([1, 2], [0]))
    { x := [[1], [2], [3]], edge_index := [(1, 2)], edge_attr := [[5]], num_nodes := 3 }
    [0, 0, 0] [0] [⟨0, "a"⟩, ⟨1, "b"⟩, ⟨2, "c"⟩] [⟨1, "r", 2⟩] 3 0 (1 / 2)
    (by decide) (by decide)).2.1 [⟨0, "x"⟩]

theorem reduceFoldSuffix (ce : ℚ) (nn : Nat) (ep : List ℚ) :
    ∀ (l : List (Nat × Nat × Nat)) (st : PCSTState),
      ∃ t : PCSTState, l.foldl (reduceStep ce nn ep) st =
        { edge_list := st.edge_list ++ t.edge_list,
          cost_list := st.cost_list ++ t.cost_list,
          virtual_edges := st.virtual_edges ++ t.virtual_edges,
          virtual_costs := st.virtual_costs ++ t.virtual_costs,
          virtual_n_prizes := st.virtual_n_prizes ++ t.virtual_n_prizes,
          mapping_e := st.mapping_e ++ t.mapping_e,
          mapping_n := st.mapping_n ++ t.mapping_n }
  | [], st => ⟨initState, by simp [initState]⟩
  | p :: l, st => by
    obtain ⟨t, ht⟩ := reduceFoldSuffix ce nn ep l (reduceStep ce nn ep st p)
    rw [List.foldl_cons, ht]
    by_cases h : ep.getD p.1 0 ≤ ce
    · refine ⟨⟨(p.2.1, p.2.2) :: t.edge_list, (ce - ep.getD p.1 0) :: t.cost_list,
        t.virtual_edges, t.virtual_costs, t.virtual_n_prizes,
        (st.edge_list.length, p.1) :: t.mapping_e, t.mapping_n⟩, ?_⟩
      simp only [reduceStep]
      rw [if_pos h]
      simp
    · refine ⟨⟨t.edge_list, t.cost_list,
        (p.2.1, nn + st.virtual_n_prizes.length) ::
          (nn + st.virtual_n_prizes.length, p.2.2) :: t.virtual_edges,
        0 :: 0 :: t.virtual_costs, (ep.getD p.1 0 - ce) :: t.virtual_n_prizes,
        t.mapping_e, (nn + st.virtual_n_prizes.length, p.1) :: t.mapping_n⟩, ?_⟩
      simp only [reduceStep]
      rw [if_neg h]
      simp

theorem reduceFold_cheap (ce : ℚ) (nn : Nat) (ep : List ℚ) :
    ∀ (l : List (Nat × Nat × Nat)) (st : PCSTState),
      st.cost_list.length = st.edge_list.length →
      ∀ i s d, (i, s, d) ∈ l → ep.getD i 0 ≤ ce →
      ∃ q, (q, i) ∈ (l.foldl (reduceStep ce nn ep) st).mapping_e ∧
        (l.foldl (reduceStep ce nn ep) st).edge_list[q]? = some (s, d) ∧
        (l.foldl (reduceStep ce nn ep) st).cost_list[q]? = some (ce - ep.getD i 0)
  | [], _, _, i, s, d, hmem, _ => absurd hmem (List.not_mem_nil _)
  | p :: l, st, hinv, i, s, d, hmem, hch => by
    rw [List.foldl_cons]
    rcases List.mem_cons.mp hmem with he | hm
    · subst he
      obtain ⟨t, ht⟩ := reduceFoldSuffix ce nn ep l (reduceStep ce nn ep st (i, s, d))
      have hme : (reduceStep ce nn ep st (i, s, d)).mapping_e =
          st.mapping_e ++ [(st.edge_list.length, i)] := by
        simp only [reduceStep]
        rw [if_pos hch]
      have hel : (reduceStep ce nn ep st (i, s, d)).edge_list =
          st.edge_list ++ [(s, d)] := by
        simp only [reduceStep]
        rw [if_pos hch]
      have hcl : (reduceStep ce nn ep st (i, s, d)).cost_list =
          st.cost_list ++ [ce - ep.getD i 0] := by
        simp only [reduceStep]
        rw [if_pos hch]
      refine ⟨st.edge_list.length, ?_, ?_, ?_⟩
      · rw [ht]
        exact List.mem_append_left _ (hme ▸ List.mem_append_right _ (List.mem_singleton.mpr rfl))
      · rw [ht]
        show ((reduceStep ce nn ep st (i, s, d)).edge_list ++ t.edge_list)[st.edge_list.length]? =
          some (s, d)
        rw [hel, List.getElem?_append, if_pos (by simp), List.getElem?_concat_length]
      · rw [ht]
        show ((reduceStep ce nn ep st (i, s, d)).cost_list ++ t.cost_list)[st.edge_list.length]? =
          some (ce - ep.getD i 0)
        rw [hcl, List.getElem?_append, if_pos (by simp [← hinv]), ← hinv,
          List.getElem?_concat_length]
    · have hinv1 : (reduceStep ce nn ep st p).cost_list.length =
          (reduceStep ce nn ep st p).edge_list.length := by
        simp only [reduceStep]
        by_cases h : ep.getD p.1 0 ≤ ce
        · rw [if_pos h]
          simp [hinv]
        · rw [if_neg h]
          simp [hinv]
      exact reduceFold_cheap ce nn ep l (reduceStep ce nn ep st p) hinv1 i s d hm hch

theorem reduceFold_expensive (ce : ℚ) (nn : Nat) (ep : List ℚ) :
    ∀ (l : List (Nat × Nat × Nat)) (st : PCSTState),
      st.virtual_edges.length = 2 * st.virtual_n_prizes.length →
      ∀ i s d, (i, s, d) ∈ l → ¬ep.getD i 0 ≤ ce →
      ∃ j, (nn + j, i) ∈ (l.foldl (reduceStep ce nn ep) st).mapping_n ∧
        (l.foldl (reduceStep ce nn ep) st).virtual_n_prizes[j]? = some (ep.getD i 0 - ce) ∧
        (l.foldl (reduceStep ce nn ep) st).virtual_edges[2 * j]? = some (s, nn + j) ∧
        (l.foldl (reduceStep ce nn ep) st).virtual_edges[2 * j + 1]? = some (nn + j, d)
  | [], _, _, i, s, d, hmem, _ => absurd hmem (List.not_mem_nil _)
  | p :: l, st, hinv, i, s, d, hmem, hex => by
    rw [List.foldl_cons]
    rcases List.mem_cons.mp hmem with he | hm
    · subst he
      obtain ⟨t, ht⟩ := reduceFoldSuffix ce nn ep l (reduceStep ce nn ep st (i, s, d))
      have hmn : (reduceStep ce nn ep st (i, s, d)).mapping_n =
          st.mapping_n ++ [(nn + st.virtual_n_prizes.length, i)] := by
        simp only [reduceStep]
        rw [if_neg hex]
      have hvp : (reduceStep ce nn ep st (i, s, d)).virtual_n_prizes =
          st.virtual_n_prizes ++ [ep.getD i 0 - ce] := by
        simp only [reduceStep]
        rw [if_neg hex]
      have hve : (reduceStep ce nn ep st (i, s, d)).virtual_edges =
          st.virtual_edges ++ [(s, nn + st.virtual_n_prizes.length),
            (nn + st.virtual_n_prizes.length, d)] := by
        simp only [reduceStep]
        rw [if_neg hex]
      refine ⟨st.virtual_n_prizes.length, ?_, ?_, ?_, ?_⟩
      · rw [ht]
        exact List.mem_append_left _ (hmn ▸ List.mem_append_right _ (List.mem_singleton.mpr rfl))
      · rw [ht]
        show ((reduceStep ce nn ep st (i, s, d)).virtual_n_prizes ++
            t.virtual_n_prizes)[st.virtual_n_prizes.length]? = some (ep.getD i 0 - ce)
        rw [hvp, List.getElem?_append, if_pos (by simp), List.getElem?_concat_length]
      · rw [ht]
        show ((reduceStep ce nn ep st (i, s, d)).virtual_edges ++
            t.virtual_edges)[2 * st.virtual_n_prizes.length]? =
          some (s, nn + st.virtual_n_prizes.length)
        rw [hve, List.getElem?_append, if_pos (by simp [← hinv]),
          List.getElem?_append_right (by omega), ← hinv]
        simp
      · rw [ht]
        show ((reduceStep ce nn ep st (i, s, d)).virtual_edges ++
            t.virtual_edges)[2 * st.virtual_n_prizes.length + 1]? =
          some (nn + st.virtual_n_prizes.length, d)
        rw [hve, List.getElem?_append, if_pos (by simp [← hinv]),
          List.getElem?_append_right (by omega), ← hinv]
        simp
    · have hinv1 : (reduceStep ce nn ep st p).virtual_edges.length =
          2 * (reduceStep ce nn ep st p).virtual_n_prizes.length := by
        simp only [reduceStep]
        by_cases h : ep.getD p.1 0 ≤ ce
        · rw [if_pos h]
          simp [hinv]
        · rw [if_neg h]
          simp [hinv]
          omega
      exact reduceFold_expensive ce nn ep l (reduceStep ce nn ep st p) hinv1 i s d hm hex

theorem reduceStep_cheap (ce : ℚ) (nn : Nat) (ep : List ℚ) (st : PCSTState)
    (p : Nat × Nat × Nat) (h : ep.getD p.1 0 ≤ ce) :
    reduceStep ce nn ep st p =
      ⟨st.edge_list ++ [(p.2.1, p.2.2)], st.cost_list ++ [ce - ep.getD p.1 0],
       st.virtual_edges, st.virtual_costs, st.virtual_n_prizes,
       st.mapping_e ++ [(st.edge_list.length, p.1)], st.mapping_n⟩ := by
  simp only [reduceStep]
  rw [if_pos h]

theorem reduceStep_expensive (ce : ℚ) (nn : Nat) (ep : List ℚ) (st : PCSTState)
    (p : Nat × Nat × Nat) (h : ¬ep.getD p.1 0 ≤ ce) :
    reduceStep ce nn ep st p =
      ⟨st.edge_list, st.cost_list,
       st.virtual_edges ++ [(p.2.1, nn + st.virtual_n_prizes.length),
         (nn + st.virtual_n_prizes.length, p.2.2)],
       st.virtual_costs ++ [0, 0], st.virtual_n_prizes ++ [ep.getD p.1 0 - ce],
       st.mapping_e, st.mapping_n ++ [(nn + st.virtual_n_prizes.length, p.1)]⟩ := by
  simp only [reduceStep]
  rw [if_neg h]

theorem reduceFold_edge_list_length (ce : ℚ) (nn : Nat) (ep : List ℚ) :
    ∀ (l : List (Nat × Nat × Nat)) (st : PCSTState),
      (l.foldl (reduceStep ce nn ep) st).edge_list.length =
        st.edge_list.length + l.countP (isCheap ce ep)
  | [], st => by simp
  | p :: l, st => by
    rw [List.foldl_cons, reduceFold_edge_list_length ce nn ep l (reduceStep ce nn ep st p),
      List.countP_cons]
    by_cases h : ep.getD p.1 0 ≤ ce
    · rw [reduceStep_cheap ce nn ep st p h]
      have hp : isCheap ce ep p = true := decide_eq_true h
      rw [hp]
      simp
      omega
    · rw [reduceStep_expensive ce nn ep st p h]
      have hp : isCheap ce ep p = false := decide_eq_false h
      rw [hp]
      simp

theorem reduceFold_cost_list_length (ce : ℚ) (nn : Nat) (ep : List ℚ) :
    ∀ (l : List (Nat × Nat × Nat)) (st : PCSTState),
      (l.foldl (reduceStep ce nn ep) st).cost_list.length =
        st.cost_list.length + l.countP (isCheap ce ep)
  | [], st => by simp
  | p :: l, st => by
    rw [List.foldl_cons, reduceFold_cost_list_length ce nn ep l (reduceStep ce nn ep st p),
      List.countP_cons]
    by_cases h : ep.getD p.1 0 ≤ ce
    · rw [reduceStep_cheap ce nn ep st p h]
      have hp : isCheap ce ep p = true := decide_eq_true h
      rw [hp]
      simp
      omega
    · rw [reduceStep_expensive ce nn ep st p h]
      have hp : isCheap ce ep p = false := decide_eq_false h
      rw [hp]
      simp

theorem reduceFold_mapping_e_snd (ce : ℚ) (nn : Nat) (ep : List ℚ) :
    ∀ (l : List (Nat × Nat × Nat)) (st : PCSTState),
      (l.foldl (reduceStep ce nn ep) st).mapping_e.map Prod.snd =
        st.mapping_e.map Prod.snd ++ (l.filter (isCheap ce ep)).map (fun p => p.1)
  | [], st => by simp
  | p :: l, st => by
    rw [List.foldl_cons, reduceFold_mapping_e_snd ce nn ep l (reduceStep ce nn ep st p),
      List.filter_cons]
    by_cases h : ep.getD p.1 0 ≤ ce
    · rw [reduceStep_cheap ce nn ep st p h]
      have hp : isCheap ce ep p = true := decide_eq_true h
      rw [hp]
      simp
    · rw [reduceStep_expensive ce nn ep st p h]
      have hp : isCheap ce ep p = false := decide_eq_false h
      rw [hp]
      simp

theorem reduceFold_virtual_n_prizes_length (ce : ℚ) (nn : Nat) (ep : List ℚ) :
    ∀ (l : List (Nat × Nat × Nat)) (st : PCSTState),
      (l.foldl (reduceStep ce nn ep) st).virtual_n_prizes.length =
        st.virtual_n_prizes.length + l.countP (isExpensive ce ep)
  | [], st => by simp
  | p :: l, st => by
    rw [List.foldl_cons,
      reduceFold_virtual_n_prizes_length ce nn ep l (reduceStep ce nn ep st p),
      List.countP_cons]
    by_cases h : ep.getD p.1 0 ≤ ce
    · rw [reduceStep_cheap ce nn ep st p h]
      have hc : isCheap ce ep p = true := decide_eq_true h
      have hp : isExpensive ce ep p = false := by
        rw [isExpensive, hc]
        rfl
      rw [hp]
      simp
    · rw [reduceStep_expensive ce nn ep st p h]
      have hc : isCheap ce ep p = false := decide_eq_false h
      have hp : isExpensive ce ep p = true := by
        rw [isExpensive, hc]
        rfl
      rw [hp]
      simp
      omega

theorem reduceFold_virtual_edges_length (ce : ℚ) (nn : Nat) (ep : List ℚ) :
    ∀ (l : List (Nat × Nat × Nat)) (st : PCSTState),
      (l.foldl (reduceStep ce nn ep) st).virtual_edges.length =
        st.virtual_edges.length + 2 * l.countP (isExpensive ce ep)
  | [], st => by simp
  | p :: l, st => by
    rw [List.foldl_cons,
      reduceFold_virtual_edges_length ce nn ep l (reduceStep ce nn ep st p),
      List.countP_cons]
    by_cases h : ep.getD p.1 0 ≤ ce
    · rw [reduceStep_cheap ce nn ep st p h]
      have hc : isCheap ce ep p = true := decide_eq_true h
      have hp : isExpensive ce ep p = false := by
        rw [isExpensive, hc]
        rfl
      rw [hp]
      simp
    · rw [reduceStep_expensive ce nn ep st p h]
      have hc : isCheap ce ep p = false := decide_eq_false h
      have hp : isExpensive ce ep p = true := by
        rw [isExpensive, hc]
        rfl
      rw [hp]
      simp
      omega

theorem reduceFold_virtual_costs (ce : ℚ) (nn : Nat) (ep : List ℚ) :
    ∀ (l : List (Nat × Nat × Nat)) (st : PCSTState),
      (l.foldl (reduceStep ce nn ep) st).virtual_costs =
        st.virtual_costs ++ List.replicate (2 * l.countP (isExpensive ce ep)) 0
  | [], st => by simp
  | p :: l, st => by
    rw [List.foldl_cons, reduceFold_virtual_costs ce nn ep l (reduceStep ce nn ep st p),
      List.countP_cons]
    by_cases h : ep.getD p.1 0 ≤ ce
    · rw [reduceStep_cheap ce nn ep st p h]
      have hc : isCheap ce ep p = true := decide_eq_true h
      have hp : isExpensive ce ep p = false := by
        rw [isExpensive, hc]
        rfl
      rw [hp]
      simp
    · rw [reduceStep_expensive ce nn ep st p h]
      have hc : isCheap ce ep p = false := decide_eq_false h
      have hp : isExpensive ce ep p = true := by
        rw [isExpensive, hc]
        rfl
      rw [hp]
      simp only [if_true]
      rw [show 2 * (l.countP (isExpensive ce ep) + 1) =
        2 + 2 * l.countP (isExpensive ce ep) from by omega]
      rw [List.replicate_add]
      simp

theorem reduceFold_mapping_n_snd (ce : ℚ) (nn : Nat) (ep : List ℚ) :
    ∀ (l : List (Nat × Nat × Nat)) (st : PCSTState),
      (l.foldl (reduceStep ce nn ep) st).mapping_n.map Prod.snd =
        st.mapping_n.map Prod.snd ++ (l.filter (isExpensive ce ep)).map (fun p => p.1)
  | [], st => by simp
  | p :: l, st => by
    rw [List.foldl_cons, reduceFold_mapping_n_snd ce nn ep l (reduceStep ce nn ep st p),
      List.filter_cons]
    by_cases h : ep.getD p.1 0 ≤ ce
    · rw [reduceStep_cheap ce nn ep st p h]
      have hc : isCheap ce ep p = true := decide_eq_true h
      have hp : isExpensive ce ep p = false := by
        rw [isExpensive, hc]
        rfl
      rw [hp]
      simp
    · rw [reduceStep_expensive ce nn ep st p h]
      have hc : isCheap ce ep p = false := decide_eq_false h
      have hp : isExpensive ce ep p = true := by
        rw [isExpensive, hc]
        rfl
      rw [hp]
      simp

theorem reduceFold_mapping_n_fst (ce : ℚ) (nn : Nat) (ep : List ℚ) :
    ∀ (l : List (Nat × Nat × Nat)) (st : PCSTState),
      (l.foldl (reduceStep ce nn ep) st).mapping_n.map Prod.fst =
        st.mapping_n.map Prod.fst ++
          List.range' (nn + st.virtual_n_prizes.length) (l.countP (isExpensive ce ep))
  | [], st => by simp
  | p :: l, st => by
    rw [List.foldl_cons, reduceFold_mapping_n_fst ce nn ep l (reduceStep ce nn ep st p),
      List.countP_cons]
    by_cases h : ep.getD p.1 0 ≤ ce
    · rw [reduceStep_cheap ce nn ep st p h]
      have hc : isCheap ce ep p = true := decide_eq_true h
      have hp : isExpensive ce ep p = false := by
        rw [isExpensive, hc]
        rfl
      rw [hp]
      simp
    · rw [reduceStep_expensive ce nn ep st p h]
      have hc : isCheap ce ep p = false := decide_eq_false h
      have hp : isExpensive ce ep p = true := by
        rw [isExpensive, hc]
        rfl
      rw [hp]
      simp only [if_true]
      rw [List.range'_succ]
      simp
      omega

theorem enum_filter_fst (edges : List (Nat × Nat)) (q : Nat → Bool) :
    (edges.enum.filter (fun p => q p.1)).map (fun p => p.1) =
      (List.range edges.length).filter q := by
  rw [← List.enum_map_fst edges, List.filter_map]
  rfl

/-! ## Claim C1 — the virtual-node reduction -/

/-- C1: for every edge `i = (src, dst)`: if `edge_prize[i] ≤ cost_e` the edge
is kept as a real edge with the non-negative cost `cost_e - edge_prize[i]`
and its edge-list position mapped back to `i` (and `i` owns no virtual node);
otherwise exactly one virtual node `num_nodes + running count` with prize
`edge_prize[i] - cost_e` is created, exactly the two zero-cost edges
`(src, virtual_id)` and `(virtual_id, dst)` are added, and the virtual id is
mapped back to `i` (and `i` owns no real-edge mapping).  Nothing else is
produced: the kept edges / costs / mappings are exactly the cheap edge
indices in order, the virtual prizes / mappings are exactly the expensive
edge indices in order with consecutive ids starting at `num_nodes`, and the
virtual costs are all zero with two entries per virtual node. -/
theorem claim_C1_virtual_node_reduction (ce : ℚ) (nn : Nat)
    (edges : List (Nat × Nat)) (ep : List ℚ) :
    (∀ i s d, edges[i]? = some (s, d) → ep.getD i 0 ≤ ce →
      0 ≤ ce - ep.getD i 0 ∧
      ∃ q, (q, i) ∈ (reduceEdges ce nn edges ep).mapping_e ∧
        (reduceEdges ce nn edges ep).edge_list[q]? = some (s, d) ∧
        (reduceEdges ce nn edges ep).cost_list[q]? = some (ce - ep.getD i 0) ∧
        ∀ m ∈ (reduceEdges ce nn edges ep).mapping_n, m.2 ≠ i) ∧
    (∀ i s d, edges[i]? = some (s, d) → ¬ep.getD i 0 ≤ ce →
      ∃ j, (nn + j, i) ∈ (reduceEdges ce nn edges ep).mapping_n ∧
        (reduceEdges ce nn edges ep).virtual_n_prizes[j]? = some (ep.getD i 0 - ce) ∧
        (reduceEdges ce nn edges ep).virtual_edges[2 * j]? = some (s, nn + j) ∧
        (reduceEdges ce nn edges ep).virtual_edges[2 * j + 1]? = some (nn + j, d) ∧
        ∀ m ∈ (reduceEdges ce nn edges ep).mapping_e, m.2 ≠ i) ∧
    (reduceEdges ce nn edges ep).mapping_e.map Prod.snd =
      (List.range edges.length).filter (fun i => ep.getD i 0 ≤ ce) ∧
    (reduceEdges ce nn edges ep).edge_list.length =
      ((List.range edges.length).filter (fun i => ep.getD i 0 ≤ ce)).length ∧
    (reduceEdges ce nn edges ep).cost_list.length =
      ((List.range edges.length).filter (fun i => ep.getD i 0 ≤ ce)).length ∧
    (reduceEdges ce nn edges ep).mapping_n.map Prod.snd =
      (List.range edges.length).filter (fun i => ¬ep.getD i 0 ≤ ce) ∧
    (reduceEdges ce nn edges ep).virtual_n_prizes.length =
      ((List.range edges.length).filter (fun i => ¬ep.getD i 0 ≤ ce)).length ∧
    (reduceEdges ce nn edges ep).virtual_edges.length =
      2 * ((List.range edges.length).filter (fun i => ¬ep.getD i 0 ≤ ce)).length ∧
    (reduceEdges ce nn edges ep).virtual_costs =
      List.replicate
        (2 * ((List.range edges.length).filter (fun i => ¬ep.getD i 0 ≤ ce)).length) 0 ∧
    (reduceEdges ce nn edges ep).mapping_n.map Prod.fst =
      List.range' nn
        ((List.range edges.length).filter (fun i => ¬ep.getD i 0 ≤ ce)).length := by
  have hfc : edges.enum.filter (isCheap ce ep) =
      edges.enum.filter (fun p => decide (ep.getD p.1 0 ≤ ce)) :=
    List.filter_congr (fun x _ => rfl)
  have hfe : edges.enum.filter (isExpensive ce ep) =
      edges.enum.filter (fun p => decide (¬ep.getD p.1 0 ≤ ce)) :=
    List.filter_congr (fun x _ => by rw [isExpensive, decide_not, isCheap])
  have hlc : (edges.enum.filter (isCheap ce ep)).map (fun p => p.1) =
      (List.range edges.length).filter (fun i => ep.getD i 0 ≤ ce) := by
    rw [hfc]
    exact enum_filter_fst edges (fun i => decide (ep.getD i 0 ≤ ce))
  have hle : (edges.enum.filter (isExpensive ce ep)).map (fun p => p.1) =
      (List.range edges.length).filter (fun i => ¬ep.getD i 0 ≤ ce) := by
    rw [hfe]
    exact enum_filter_fst edges (fun i => decide (¬ep.getD i 0 ≤ ce))
  have hmape : (reduceEdges ce nn edges ep).mapping_e.map Prod.snd =
      (List.range edges.length).filter (fun i => ep.getD i 0 ≤ ce) := by
    rw [reduceEdges, reduceFold_mapping_e_snd]
    simp only [initState, List.map_nil, List.nil_append]
    rw [hlc]
  have hmapn : (reduceEdges ce nn edges ep).mapping_n.map Prod.snd =
      (List.range edges.length).filter (fun i => ¬ep.getD i 0 ≤ ce) := by
    rw [reduceEdges, reduceFold_mapping_n_snd]
    simp only [initState, List.map_nil, List.nil_append]
    rw [hle]
  have hcnt : edges.enum.countP (isCheap ce ep) =
      ((List.range edges.length).filter (fun i => ep.getD i 0 ≤ ce)).length := by
    rw [List.countP_eq_length_filter]
    have h2 := congrArg List.length hlc
    rwa [List.length_map] at h2
  have hcnte : edges.enum.countP (isExpensive ce ep) =
      ((List.range edges.length).filter (fun i => ¬ep.getD i 0 ≤ ce)).length := by
    rw [List.countP_eq_length_filter]
    have h2 := congrArg List.length hle
    rwa [List.length_map] at h2
  refine ⟨?_, ?_, hmape, ?_, ?_, hmapn, ?_, ?_, ?_, ?_⟩
  · -- cheap edges
    intro i s d hedge hch
    refine ⟨by linarith, ?_⟩
    have hmem : (i, s, d) ∈ edges.enum := List.mem_enum_iff_getElem?.mpr hedge
    obtain ⟨q, hq1, hq2, hq3⟩ := reduceFold_cheap ce nn ep edges.enum initState rfl i s d hmem hch
    refine ⟨q, hq1, hq2, hq3, ?_⟩
    intro m hm hmi
    have h2 : m.2 ∈ (reduceEdges ce nn edges ep).mapping_n.map Prod.snd :=
      List.mem_map.mpr ⟨m, hm, rfl⟩
    rw [hmapn, List.mem_filter] at h2
    rw [hmi] at h2
    exact absurd hch (by simpa using h2.2)
  · -- expensive edges
    intro i s d hedge hex
    have hmem : (i, s, d) ∈ edges.enum := List.mem_enum_iff_getElem?.mpr hedge
    obtain ⟨j, hj1, hj2, hj3, hj4⟩ :=
      reduceFold_expensive ce nn ep edges.enum initState rfl i s d hmem hex
    refine ⟨j, hj1, hj2, hj3, hj4, ?_⟩
    intro m hm hmi
    have h2 : m.2 ∈ (reduceEdges ce nn edges ep).mapping_e.map Prod.snd :=
      List.mem_map.mpr ⟨m, hm, rfl⟩
    rw [hmape, List.mem_filter] at h2
    rw [hmi] at h2
    exact absurd (by simpa using h2.2) hex
  · rw [reduceEdges, reduceFold_edge_list_length, hcnt]
    simp [initState]
  · rw [reduceEdges, reduceFold_cost_list_length, hcnt]
    simp [initState]
  · rw [reduceEdges, reduceFold_virtual_n_prizes_length, hcnte]
    simp [initState]
  · rw [reduceEdges, reduceFold_virtual_edges_length, hcnte]
    simp [initState]
  · rw [reduceEdges, reduceFold_virtual_costs, hcnte]
    simp [initState]
  · rw [reduceEdges, reduceFold_mapping_n_fst, hcnte]
    simp [initState]

/-- Witness for C1: edge 0 is cheap (prize 0, cost 1); edge 1 is expensive
(prize 2 > 1) and becomes virtual node 2 with two zero-cost edges. -/
theorem claim_C1_witness :
    (0 ≤ (1 : ℚ) - ([0, 2] : List ℚ).getD 0 0 ∧
      ∃ q, (q, 0) ∈ (reduceEdges 1 2 [(0, 1), (1, 0)] [0, 2]).mapping_e ∧
        (reduceEdges 1 2 [(0, 1), (1, 0)] [0, 2]).edge_list[q]? = some (0, 1) ∧
        (reduceEdges 1 2 [(0, 1), (1, 0)] [0, 2]).cost_list[q]? =
          some ((1 : ℚ) - ([0, 2] : List ℚ).getD 0 0) ∧
        ∀ m ∈ (reduceEdges 1 2 [(0, 1), (1, 0)] [0, 2]).mapping_n, m.2 ≠ 0) ∧
    (∃ j, (2 + j, 1) ∈ (reduceEdges 1 2 [(0, 1), (1, 0)] [0, 2]).mapping_n ∧
      (reduceEdges 1 2 [(0, 1), (1, 0)] [0, 2]).virtual_n_prizes[j]? =
        some (([0, 2] : List ℚ).getD 1 0 - 1) ∧
      (reduceEdges 1 2 [(0, 1), (1, 0)] [0, 2]).virtual_edges[2 * j]? = some (1, 2 + j) ∧
      (reduceEdges 1 2 [(0, 1), (1, 0)] [0, 2]).virtual_edges[2 * j + 1]? = some (2 + j, 0) ∧
      ∀ m ∈ (reduceEdges 1 2 [(0, 1), (1, 0)] [0, 2]).mapping_e, m.2 ≠ 1) :=
  ⟨(claim_C1_virtual_node_reduction 1 2 [(0, 1), (1, 0)] [0, 2]).1 0 0 1 rfl (by decide),
   (claim_C1_virtual_node_reduction 1 2 [(0, 1), (1, 0)] [0, 2]).2.1 1 1 0 rfl (by decide)⟩


/-! ## C2: edge-prize assignment -/

theorem findIdx?_getD_of_mem {α : Type} [DecidableEq α] (l : List α) (v d : α)
    (hnd : l.Nodup) (hv : v ∈ l) :
    ∃ j, j < l.length ∧ l.getD j d = v ∧ l.findIdx? (fun m => m = v) = some j := by
  obtain ⟨j, hj⟩ := List.mem_iff_getElem?.mp hv
  have hjlt : j < l.length := by
    by_contra hge
    rw [List.getElem?_eq_none (by omega)] at hj
    exact Option.noConfusion hj
  refine ⟨j, hjlt, ?_, by simpa using findIdx?_some_of_nodup l v 0 j hnd hj⟩
  rw [List.getD_eq_getElem?_getD, hj]
  rfl

theorem getD_mem_of_lt {α : Type} (l : List α) (k : Nat) (d : α) (hk : k < l.length) :
    l.getD k d ∈ l := by
  rw [List.getD_eq_getElem?_getD, List.getElem?_eq_getElem hk]
  exact List.getElem_mem hk

theorem loopState_eq_tier_iff (sims : List ℚ) (tke cm : ℚ) (V : List ℚ) (thr : ℚ)
    (hVnd : V.Nodup) (hVthr : ∀ v ∈ V, thr ≤ v)
    (hmem : ∀ s ∈ sims, ¬s < thr → s ∈ V)
    (H1 : ∀ k < V.length, ∀ j < k, specAssign sims tke cm V (j + 1) ≠ V.getD k 0)
    (H2 : ∀ k < V.length, V.getD k 0 ≠ 0 ∨ ∀ s ∈ sims, ¬s < thr)
    (k : Nat) (hk : k < V.length) (s : ℚ) (hs : s ∈ sims) :
    loopState sims tke cm V thr k s = V.getD k 0 ↔ s = V.getD k 0 := by
  rw [loopState]
  by_cases hlt : s < thr
  · rw [if_pos hlt]
    have hv0 : V.getD k 0 ≠ 0 := by
      rcases H2 k hk with h | h
      · exact h
      · exact absurd hlt (h s hs)
    constructor
    · intro h0
      exact absurd h0.symm hv0
    · intro hsv
      have hthr : thr ≤ V.getD k 0 := hVthr _ (getD_mem_of_lt V k 0 hk)
      rw [← hsv] at hthr
      exact absurd hlt (not_lt.mpr hthr)
  · rw [if_neg hlt]
    obtain ⟨j, hjlt, hjget, hjfind⟩ := findIdx?_getD_of_mem V s 0 hVnd (hmem s hs hlt)
    rw [hjfind]
    show (if j < k then specAssign sims tke cm V (j + 1) else s) = V.getD k 0 ↔ s = V.getD k 0
    by_cases hjk : j < k
    · rw [if_pos hjk]
      constructor
      · intro hAj
        exact absurd hAj (H1 k hk j hjk)
      · intro hsv
        exfalso
        have : V.getD j 0 = V.getD k 0 := by
          rw [hjget, hsv]
        rw [List.getD_eq_getElem?_getD, List.getD_eq_getElem?_getD,
          List.getElem?_eq_getElem hjlt, List.getElem?_eq_getElem hk] at this
        have hj2 : j = k := (List.Nodup.getElem_inj_iff hVnd).mp this
        omega
    · rw [if_neg hjk]

theorem loopState_upd (sims : List ℚ) (tke cm : ℚ) (V : List ℚ) (thr : ℚ)
    (hVnd : V.Nodup) (hVthr : ∀ v ∈ V, thr ≤ v)
    (hmem : ∀ s ∈ sims, ¬s < thr → s ∈ V)
    (H1 : ∀ k < V.length, ∀ j < k, specAssign sims tke cm V (j + 1) ≠ V.getD k 0)
    (H2 : ∀ k < V.length, V.getD k 0 ≠ 0 ∨ ∀ s ∈ sims, ¬s < thr)
    (k : Nat) (hk : k < V.length) (s : ℚ) (hs : s ∈ sims) :
    (if loopState sims tke cm V thr k s = V.getD k 0
      then specAssign sims tke cm V (k + 1) else loopState sims tke cm V thr k s) =
      loopState sims tke cm V thr (k + 1) s := by
  by_cases hsv : s = V.getD k 0
  · rw [if_pos ((loopState_eq_tier_iff sims tke cm V thr hVnd hVthr hmem H1 H2 k hk s hs).mpr
      hsv)]
    have hnlt : ¬s < thr := by
      have hthr : thr ≤ V.getD k 0 := hVthr _ (getD_mem_of_lt V k 0 hk)
      rw [← hsv] at hthr
      exact not_lt.mpr hthr
    obtain ⟨j, hjlt, hjget, hjfind⟩ := findIdx?_getD_of_mem V s 0 hVnd (hmem s hs hnlt)
    have hj2 : j = k := by
      have : V.getD j 0 = V.getD k 0 := by
        rw [hjget, hsv]
      rw [List.getD_eq_getElem?_getD, List.getD_eq_getElem?_getD,
        List.getElem?_eq_getElem hjlt, List.getElem?_eq_getElem hk] at this
      exact (List.Nodup.getElem_inj_iff hVnd).mp this
    subst hj2
    rw [loopState, if_neg hnlt, hjfind]
    show specAssign sims tke cm V (j + 1) =
      (if j < j + 1 then specAssign sims tke cm V (j + 1) else s)
    rw [if_pos (by omega)]
  · rw [if_neg (fun hc =>
      hsv ((loopState_eq_tier_iff sims tke cm V thr hVnd hVthr hmem H1 H2 k hk s hs).mp hc))]
    rw [loopState, loopState]
    by_cases hlt : s < thr
    · rw [if_pos hlt, if_pos hlt]
    · rw [if_neg hlt, if_neg hlt]
      obtain ⟨j, hjlt, hjget, hjfind⟩ := findIdx?_getD_of_mem V s 0 hVnd (hmem s hs hlt)
      rw [hjfind]
      show (if j < k then specAssign sims tke cm V (j + 1) else s) =
        (if j < k + 1 then specAssign sims tke cm V (j + 1) else s)
      by_cases hjk : j < k
      · rw [if_pos hjk, if_pos (by omega)]
      · have hjk1 : ¬j < k + 1 := by
          intro hlt1
          have hjeq : j = k := by omega
          subst hjeq
          exact hsv hjget.symm
        rw [if_neg hjk, if_neg hjk1]

theorem assignLoop_eq_spec (sims : List ℚ) (tke cm : ℚ) (V : List ℚ) (thr : ℚ)
    (hVnd : V.Nodup) (hVthr : ∀ v ∈ V, thr ≤ v)
    (hmem : ∀ s ∈ sims, ¬s < thr → s ∈ V)
    (H1 : ∀ k < V.length, ∀ j < k, specAssign sims tke cm V (j + 1) ≠ V.getD k 0)
    (H2 : ∀ k < V.length, V.getD k 0 ≠ 0 ∨ ∀ s ∈ sims, ¬s < thr) :
    ∀ (n k : Nat), n = V.length - k → k ≤ V.length →
      assignLoop tke cm (V.drop k) k (specAssign sims tke cm V k)
          (sims.map (loopState sims tke cm V thr k)) =
        sims.map (loopState sims tke cm V thr V.length)
  | 0, k, hn, hk => by
    have hkl : k = V.length := by omega
    subst hkl
    rw [List.drop_length]
    rfl
  | n + 1, k, hn, hk => by
    have hklt : k < V.length := by omega
    have hdrop : V.drop k = V.getD k 0 :: V.drop (k + 1) := by
      rw [List.drop_eq_getElem_cons hklt]
      congr 1
      rw [List.getD_eq_getElem?_getD, List.getElem?_eq_getElem hklt]
      rfl
    rw [hdrop]
    show assignLoop tke cm (V.getD k 0 :: V.drop (k + 1)) k (specAssign sims tke cm V k)
        (sims.map (loopState sims tke cm V thr k)) = _
    rw [assignLoop]
    have hcnt : (((sims.map (loopState sims tke cm V thr k)).filter
        (fun p => p = V.getD k 0)).length : ℚ) = (tierCount sims (V.getD k 0) : ℚ) := by
      rw [List.filter_map, List.length_map]
      congr 2
      refine List.filter_congr ?_
      intro s hs
      have hiff := loopState_eq_tier_iff sims tke cm V thr hVnd hVthr hmem H1 H2 k hklt s hs
      show decide (loopState sims tke cm V thr k s = V.getD k 0) = decide (s = V.getD k 0)
      by_cases hsv : s = V.getD k 0
      · rw [decide_eq_true (hiff.mpr hsv), decide_eq_true hsv]
      · rw [decide_eq_false (fun hc => hsv (hiff.mp hc)), decide_eq_false hsv]
    rw [hcnt]
    have hval : min ((tke - (k : ℚ)) / (tierCount sims (V.getD k 0) : ℚ))
        (specAssign sims tke cm V k - cm) = specAssign sims tke cm V (k + 1) := rfl
    rw [hval]
    have hmapupd : (sims.map (loopState sims tke cm V thr k)).map
        (fun p => if p = V.getD k 0 then specAssign sims tke cm V (k + 1) else p) =
        sims.map (loopState sims tke cm V thr (k + 1)) := by
      rw [List.map_map]
      refine List.map_congr_left ?_
      intro s hs
      exact loopState_upd sims tke cm V thr hVnd hVthr hmem H1 H2 k hklt s hs
    rw [hmapupd]
    exact assignLoop_eq_spec sims tke cm V thr hVnd hVthr hmem H1 H2 n (k + 1)
      (by omega) (by omega)

/-- Counterexample to C2 as stated: on similarities `[9/10, 9/10, 9/10, 9/10,
1/2]` with `topk_e = 2` the source assigns every edge the prize `1/5`, while
the claimed per-tier formula demands `1/2` for the `9/10` tier and `49/100`
for the `1/2` tier. The source mutates `e_prizes` in place, so when the second
tier value `1/2` is processed, the equality test `e_prizes == value` also
matches the four entries just overwritten with `min(2/4, 2 - 1/100) = 1/2`,
merging the two tie groups into one of size 5 and yielding
`min(1/5, 1/2 - 1/100) = 1/5` for all of them; the claimed strict decrease
across tiers fails as well (both tiers end at `1/5`). -/
theorem claim_C2_counterexample :
    edgePrizes [9/10, 9/10, 9/10, 9/10, 1/2] 2 ≠
      edgePrizesSpec [9/10, 9/10, 9/10, 9/10, 1/2] 2 ∧
    edgePrizes [9/10, 9/10, 9/10, 9/10, 1/2] 2 = [1/5, 1/5, 1/5, 1/5, 1/5] ∧
    edgePrizesSpec [9/10, 9/10, 9/10, 9/10, 1/2] 2 =
      [1/2, 1/2, 1/2, 1/2, 49/100] :=
  ⟨by decide, by decide, by decide⟩

/-- C2 (amended): with `topk_e > 0`, `tke` the clamp of `topk_e` to the number
of distinct similarity values, `vals` the top `tke` distinct similarities in
descending order and `thr` the lowest of them, every edge with similarity
below `thr` gets prize `0`, and -- provided no already-assigned tier prize
(the value `specAssign (j+1)` of an earlier tier `j`, hypothesis `H1`) and no
zeroed-out entry (hypothesis `H2`) collides with a still-unprocessed tier
value -- each edge in the tier of 0-indexed rank `k` receives
`min((tke - k)/count, previous - 1/100)` with `previous` initialized to
`tke`, i.e. the prize vector equals the spec-modelled `edgePrizesSpec`; the
per-tier values `specAssign` are strictly decreasing unconditionally. Without
the no-collision hypotheses the claim is false (see the counterexample): the
source tests equality against the already-mutated array, so tie groups can
merge. -/
theorem claim_C2_edge_prizes (sims : List ℚ) (topk_e : Int) (tke : Nat)
    (vals : List ℚ) (thr : ℚ)
    (hne : sims ≠ []) (htk : 0 < topk_e)
    (htke : tke = min topk_e.toNat sims.dedup.length)
    (hvals : vals = (sortedDistinct sims).take tke)
    (hthr : thr = vals.getD (tke - 1) 0)
    (H1 : ∀ k < vals.length, ∀ j < k,
      specAssign sims (tke : ℚ) (1 / 100) vals (j + 1) ≠ vals.getD k 0)
    (H2 : ∀ k < vals.length, vals.getD k 0 ≠ 0 ∨ ∀ s ∈ sims, ¬s < thr) :
    edgePrizes sims topk_e = edgePrizesSpec sims topk_e ∧
    (∀ k, specAssign sims (tke : ℚ) (1 / 100) vals (k + 2) <
      specAssign sims (tke : ℚ) (1 / 100) vals (k + 1)) := by
  subst htke hvals hthr
  set tke := min topk_e.toNat sims.dedup.length with htkedef
  constructor
  · -- the sorted distinct list and its prefix
    have hSDsort : List.Sorted (· ≥ ·) (sortedDistinct sims) :=
      List.sorted_insertionSort _ _
    have hSDperm : (sortedDistinct sims).Perm sims.dedup := List.perm_insertionSort _ _
    have hSDnodup : (sortedDistinct sims).Nodup :=
      hSDperm.nodup_iff.mpr (List.nodup_dedup _)
    have hSDlen : (sortedDistinct sims).length = sims.dedup.length := by
      rw [hSDperm.length_eq]
    have hSDmem : ∀ x, x ∈ sortedDistinct sims ↔ x ∈ sims := by
      intro x
      rw [hSDperm.mem_iff, List.mem_dedup]
    have htke1 : 1 ≤ tke := by
      have h1 : sims.dedup ≠ [] := fun hc => hne ((List.dedup_eq_nil sims).mp hc)
      have h2 : 1 ≤ sims.dedup.length := by
        cases hd : sims.dedup with
        | nil => exact absurd hd h1
        | cons a l => simp [hd]
      have h3 : 1 ≤ topk_e.toNat := by omega
      omega
    have htkele : tke ≤ (sortedDistinct sims).length := by
      rw [hSDlen]
      omega
    set V := (sortedDistinct sims).take tke with hVdef
    have hVlen : V.length = tke := by
      rw [hVdef, List.length_take]
      omega
    have hVnd : V.Nodup := (List.take_sublist tke (sortedDistinct sims)).nodup hSDnodup
    have hVsort : List.Sorted (· ≥ ·) V :=
      List.Pairwise.sublist (List.take_sublist tke (sortedDistinct sims)) hSDsort
    have hVget : ∀ j, j < tke → ∀ hj2 : j < (sortedDistinct sims).length,
        V.getD j 0 = (sortedDistinct sims)[j] := by
      intro j hj hj2
      rw [hVdef, List.getD_eq_getElem?_getD, List.getElem?_take, if_pos hj,
        List.getElem?_eq_getElem hj2]
      rfl
    set thr := V.getD (tke - 1) 0 with hthrdef
    have hVthr : ∀ v ∈ V, thr ≤ v := by
      intro v hv
      obtain ⟨j, hjv⟩ := List.mem_iff_getElem?.mp hv
      have hjlt : j < V.length := by
        by_contra hge
        rw [List.getElem?_eq_none (by omega)] at hjv
        exact Option.noConfusion hjv
      have hvj : V.getD j 0 = v := by
        rw [List.getD_eq_getElem?_getD, hjv]
        rfl
      rcases Nat.lt_or_ge j (tke - 1) with hj1 | hj1
      · have hjlt2 : j < V.length := by omega
        have hklt2 : tke - 1 < V.length := by omega
        have hpair := List.pairwise_iff_getElem.mp hVsort j (tke - 1)
          hjlt2 hklt2 hj1
        have h1 : V.getD j 0 = V.get ⟨j, hjlt2⟩ := by
          rw [List.getD_eq_getElem?_getD, List.getElem?_eq_getElem hjlt2]
          rfl
        have h2 : V.getD (tke - 1) 0 = V.get ⟨tke - 1, hklt2⟩ := by
          rw [List.getD_eq_getElem?_getD, List.getElem?_eq_getElem hklt2]
          rfl
        rw [hthrdef, h2, ← hvj, h1]
        exact hpair
      · have hje : j = tke - 1 := by omega
        rw [hthrdef, ← hvj, hje]
    have hmem : ∀ s ∈ sims, ¬s < thr → s ∈ V := by
      intro s hs hnlt
      have hsSD : s ∈ sortedDistinct sims := (hSDmem s).mpr hs
      obtain ⟨j, hjv⟩ := List.mem_iff_getElem?.mp hsSD
      have hjlt : j < (sortedDistinct sims).length := by
        by_contra hge
        rw [List.getElem?_eq_none (by omega)] at hjv
        exact Option.noConfusion hjv
      rcases Nat.lt_or_ge j tke with hjt | hjt
      · rw [hVdef]
        refine List.mem_iff_getElem?.mpr ⟨j, ?_⟩
        rw [List.getElem?_take, if_pos hjt, hjv]
      · exfalso
        have hlt2 : tke - 1 < j := by omega
        have ht1 : tke - 1 < (sortedDistinct sims).length := by omega
        have hpair := List.pairwise_iff_getElem.mp hSDsort (tke - 1) j
          ht1 hjlt hlt2
        have hne2 : (sortedDistinct sims).get ⟨tke - 1, ht1⟩ ≠
            (sortedDistinct sims).get ⟨j, hjlt⟩ := by
          intro he
          have := (List.Nodup.getElem_inj_iff hSDnodup).mp he
          omega
        have hpair2 : (sortedDistinct sims).get ⟨tke - 1, ht1⟩ ≥
            (sortedDistinct sims).get ⟨j, hjlt⟩ := hpair
        have hthrv : thr = (sortedDistinct sims).get ⟨tke - 1, ht1⟩ := by
          rw [hthrdef, hVget (tke - 1) (by omega) ht1, List.get_eq_getElem]
        have hsv : (sortedDistinct sims).get ⟨j, hjlt⟩ = s := by
          rw [List.get_eq_getElem]
          rw [List.getElem?_eq_getElem hjlt] at hjv
          exact Option.some.inj hjv
        rw [hsv] at hpair2 hne2
        rw [hthrv] at hnlt
        exact hnlt (lt_of_le_of_ne hpair2 (Ne.symm hne2))
    -- both sides unfold to maps over sims
    have hEP : edgePrizes sims topk_e =
        assignLoop (tke : ℚ) (1 / 100) V 0 (tke : ℚ)
          (sims.map fun s => if s < thr then 0 else s) := by
      rw [edgePrizes, if_pos htk]
    have hps0 : (sims.map fun s => if s < thr then 0 else s) =
        sims.map (loopState sims (tke : ℚ) (1 / 100) V thr 0) := by
      refine List.map_congr_left fun s hs => ?_
      rw [loopState]
      by_cases hlt : s < thr
      · rw [if_pos hlt, if_pos hlt]
      · rw [if_neg hlt, if_neg hlt]
        cases hf : V.findIdx? (fun v => v = s) with
        | none => rfl
        | some j =>
          show s = (if j < 0 then _ else s)
          rw [if_neg (by omega)]
    have hmain := assignLoop_eq_spec sims (tke : ℚ) (1 / 100) V thr hVnd hVthr hmem H1 H2
      V.length 0 (by omega) (by omega)
    rw [List.drop_zero] at hmain
    have hspec : edgePrizesSpec sims topk_e =
        sims.map (loopState sims (tke : ℚ) (1 / 100) V thr V.length) := by
      rw [edgePrizesSpec, if_pos htk]
      refine List.map_congr_left fun s hs => ?_
      rw [loopState]
      by_cases hlt : s < thr
      · rw [if_pos hlt, if_pos hlt]
      · rw [if_neg hlt, if_neg hlt]
        obtain ⟨j, hjlt, hjget, hjfind⟩ := findIdx?_getD_of_mem V s 0 hVnd (hmem s hs hlt)
        rw [hjfind]
        show specAssign sims (tke : ℚ) (1 / 100) V (j + 1) =
          (if j < V.length then specAssign sims (tke : ℚ) (1 / 100) V (j + 1) else s)
        rw [if_pos hjlt]
    rw [hEP, hps0, hspec]
    show assignLoop (tke : ℚ) (1 / 100) V 0 (specAssign sims (tke : ℚ) (1 / 100) V 0)
        (sims.map (loopState sims (tke : ℚ) (1 / 100) V thr 0)) = _
    exact hmain
  · intro k
    have h1 : specAssign sims (tke : ℚ) (1 / 100)
        ((sortedDistinct sims).take tke) (k + 2) ≤
        specAssign sims (tke : ℚ) (1 / 100) ((sortedDistinct sims).take tke) (k + 1) -
          1 / 100 :=
      min_le_right _ _
    have h2 : specAssign sims (tke : ℚ) (1 / 100) ((sortedDistinct sims).take tke) (k + 1) -
        1 / 100 <
        specAssign sims (tke : ℚ) (1 / 100) ((sortedDistinct sims).take tke) (k + 1) := by
      norm_num
    exact lt_of_le_of_lt h1 h2




/-- Witness for C2: on similarities `[9/10, 1/2, 1/4]` with `topk_e = 2` the
no-collision hypotheses hold concretely and the source's prizes
`[199/100, 1, 0]` match the claimed formula. -/
theorem claim_C2_witness :
    edgePrizes [9/10, 1/2, 1/4] 2 = edgePrizesSpec [9/10, 1/2, 1/4] 2 ∧
    edgePrizes [9/10, 1/2, 1/4] 2 = [199/100, 1, 0] :=
  ⟨(claim_C2_edge_prizes [9/10, 1/2, 1/4] 2 2 [9/10, 1/2] (1/2)
      (by decide) (by decide) (by decide) (by decide) (by decide)
      (by decide) (by decide)).1,
   by decide⟩

end WebQSP
